import Mathlib

/-!
Verification of the GEOP email dispatch service core against its
natural-language specification.  The TypeScript source is shallowly
embedded: strings are lists of characters where character-level scanning
matters, asynchronous storage calls are modelled with explicit state
passing plus an error-injection world, and the JavaScript regex passes of
the template renderer and tracking injector are implemented as executable
character scanners that mirror the regex semantics used by the source.
-/

/-! ## Basic character and string utilities shared by the embeddings -/

/-- The left brace character, written via its code point. -/
def lb : Char := Char.ofNat 123

/-- The right brace character, written via its code point. -/
def rb : Char := Char.ofNat 125

/-- JavaScript whitespace test for the regex class backslash-s, restricted to
the ASCII whitespace characters that occur in HTML bodies. -/
def jsWS (c : Char) : Bool :=
  c = ' ' || c = '\t' || c = '\n' || c = '\r' || c = Char.ofNat 11 || c = Char.ofNat 12

/-- JavaScript String.prototype.trim on a character list. -/
def jsTrim (l : List Char) : List Char :=
  ((l.dropWhile jsWS).reverse.dropWhile jsWS).reverse

/-- Splits a list at the first occurrence of the pattern: returns the part
strictly before the first occurrence and the part strictly after it.
This is the search underlying both JavaScript String.prototype.includes and
the single-replacement form of String.prototype.replace. -/
def splitFirst (pat : List Char) : List Char → Option (List Char × List Char)
  | [] => if pat.isEmpty then some ([], []) else none
  | c :: rest =>
    if pat.isPrefixOf (c :: rest) then some ([], (c :: rest).drop pat.length)
    else
      match splitFirst pat rest with
      | some (a, b) => some (c :: a, b)
      | none => none

/-- JavaScript String.prototype.includes on character lists. -/
def jsIncludes (l pat : List Char) : Bool :=
  (splitFirst pat l).isSome

/-- JavaScript String.prototype.replace with a plain-string pattern:
replaces only the first occurrence, or returns the input unchanged when the
pattern does not occur. -/
def replaceFirst (pat repl l : List Char) : List Char :=
  match splitFirst pat l with
  | some (a, b) => a ++ repl ++ b
  | none => l

/-- Lowercasing of a string as used by toLowerCase in the compliance
heuristic (character-wise lowering). -/
def strToLower (s : String) : String :=
  String.mk (s.data.map Char.toLower)

/-- Truthy-or-default on an optional string, mirroring the JavaScript
idiom (x or-else d) where the empty string is falsy. -/
def orElseStr (o : Option String) (d : String) : String :=
  match o with
  | some s => if s = "" then d else s
  | none => d

/-- Truthy-or-default on a string, mirroring (x or-else d) where the empty
string is falsy. -/
def orStr (s d : String) : String :=
  if s = "" then d else s

/-- Truthy-or-default on a natural number, mirroring (x or-else d) where 0
is falsy. -/
def orNat (n d : Nat) : Nat :=
  if n = 0 then d else n

/-! ## Template renderer (processTemplate in src/server/services/email.ts)

The source replaces, with a global regex, every occurrence of a double
left brace, one or more non-right-brace characters, and a double right
brace, by the variable value looked up under the trimmed captured name
when that value is truthy, and otherwise leaves the matched text verbatim:
the replacement expression is variables[variable.trim()] or-else match.
The scanner below implements exactly that pass: at each position it either
consumes a full leftmost-greedy match or emits one character. -/

/-- Lookup in the variables record with JavaScript truthiness: an absent key
and an empty-string value are both falsy. -/
def jsLookup (v : String → Option String) (key : String) : Option String :=
  match v key with
  | some s => if s = "" then none else some s
  | none => none

/-- The replacement text for one regex match with captured body run:
the variable value when truthy, otherwise the matched text verbatim. -/
def replOf (v : String → Option String) (run : List Char) : List Char :=
  match jsLookup v (String.mk (jsTrim run)) with
  | some val => val.data
  | none => lb :: lb :: (run ++ [rb, rb])

/-- Test for a character different from the right brace, the negation of the
excluded character class of the template regex. -/
def notRb (c : Char) : Bool := c ≠ rb

/-- Attempts the template regex match at the head of the list.  A match is
a double left brace, a nonempty run of non-right-brace characters (the
greedy capture), and a double right brace.  On success returns the
replacement text and the remainder after the match. -/
def tmplStep (v : String → Option String) (l : List Char) :
    Option (List Char × List Char) :=
  match l with
  | c1 :: c2 :: rest =>
    if c1 = lb ∧ c2 = lb then
      match rest.takeWhile notRb, rest.dropWhile notRb with
      | r0 :: rs, d1 :: d2 :: rem =>
        if d1 = rb ∧ d2 = rb then some (replOf v (r0 :: rs), rem) else none
      | _, _ => none
    else none
  | _ => none

/-- The renderer scan: repeatedly either consumes a full match at the
current position or emits one character and moves on, exactly as a global
regex replace proceeds.  The fuel argument makes the recursion structural;
it is always instantiated with the length of the list, which suffices
because each step consumes at least one character. -/
def scanTF (v : String → Option String) : Nat → List Char → List Char
  | _, [] => []
  | 0, _ :: _ => []
  | n + 1, c :: rest =>
    match tmplStep v (c :: rest) with
    | some pr => pr.1 ++ scanTF v n pr.2
    | none => c :: scanTF v n rest

/-- The renderer scan over a whole list. -/
def scanT (v : String → Option String) (l : List Char) : List Char :=
  scanTF v l.length l

/-- processTemplate from src/server/services/email.ts: variable
substitution over the whole content string. -/
def processTemplate (content : String) (vars : String → Option String) :
    String :=
  String.mk (scanT vars content.data)

/-- The variables map has brace-free values: no value contains a left or a
right brace character. -/
def bracesFreeVals (v : String → Option String) : Prop :=
  ∀ k s, v k = some s → lb ∉ s.data ∧ rb ∉ s.data

/-- The failure shape of the template regex tail: after dropping the
capture run, the next two characters are not a double right brace. -/
def noDoubleRb (l : List Char) : Prop :=
  (l.dropWhile notRb).take 2 ≠ [rb, rb]

/-! ## Claims C9 and C10: template renderer properties -/

/-- Concrete variables map refuting unconditional idempotence: a maps to a
text that is itself a placeholder for b, and b maps to Z. -/
def c9cVars : String → Option String := fun k =>
  if k = "a" then some (String.mk [lb, lb, 'b', rb, rb])
  else if k = "b" then some "Z" else none

/-- Concrete content consisting of the single placeholder for a. -/
def c9cContent : String := String.mk [lb, lb, 'a', rb, rb]

/-- Concrete witness content for the amended C9: one placeholder and text. -/
def c9wContent : String := String.mk (lb :: lb :: 'x' :: rb :: rb :: " hello".data)

/-- Concrete witness variables for the amended C9. -/
def c9wVars : String → Option String := fun k =>
  if k = "x" then some "world" else none

/-- Concrete witness variables for C10: the name n maps to the empty
string. -/
def c10wVars : String → Option String := fun k =>
  if k = "n" then some "" else none

/-! ## Tracking injector (inside sendEmail in the smtp-router part of
src/server/storage.ts)

The source first inserts a one-pixel open-tracking image immediately
before the closing body tag unless the body already contains the marker
class tracking-pixel, then rewrites every anchor href with a global
case-insensitive regex into the click redirect endpoint carrying the
encoded original URL and the tracking id. -/

/-- Characters that encodeURIComponent leaves unescaped. -/
def isUnreservedURI (c : Char) : Bool :=
  c.isAlpha || c.isDigit || c = '-' || c = '_' || c = '.' || c = '!' ||
    c = Char.ofNat 126 || c = '*' || c = Char.ofNat 39 || c = '(' || c = ')'

/-- Upper-case hexadecimal digit for a value below 16. -/
def hexDigit (n : Nat) : Char :=
  if n < 10 then Char.ofNat (48 + n) else Char.ofNat (55 + n)

/-- UTF-8 byte sequence of one character, as percent-escaping operates on
bytes. -/
def utf8Bytes (c : Char) : List Nat :=
  let n := c.toNat
  if n < 128 then [n]
  else if n < 2048 then [192 + n / 64, 128 + n % 64]
  else if n < 65536 then [224 + n / 4096, 128 + (n / 64) % 64, 128 + n % 64]
  else [240 + n / 262144, 128 + (n / 4096) % 64, 128 + (n / 64) % 64,
    128 + n % 64]

/-- JavaScript encodeURIComponent on a character list. -/
def encodeURIComponent (l : List Char) : List Char :=
  (l.map (fun c =>
    if isUnreservedURI c then [c]
    else (utf8Bytes c).map
      (fun b => ['%', hexDigit (b / 16), hexDigit (b % 16)]) |>.flatten)).flatten

/-- The click redirect URL built by sendEmail for one original link URL. -/
def trackingClickUrl (host tid u : List Char) : List Char :=
  "http://".data ++ host ++ ":5000/api/tracking/click/".data ++ tid ++
    "?url=".data ++ encodeURIComponent u

/-- The open-tracking pixel image markup inserted by sendEmail. -/
def pixelHtml (host tid : List Char) : List Char :=
  "<img src=\"http://".data ++ host ++ ":5000/api/tracking/open/".data ++
    tid ++
    "\" alt=\"\" width=\"1\" height=\"1\" style=\"display:none\" class=\"tracking-pixel\" />".data

/-- The marker substring whose presence makes pixel insertion a no-op. -/
def pixelMarker : List Char := "tracking-pixel".data

/-- The closing body tag before which the pixel is inserted. -/
def bodyCloseTag : List Char := "</body>".data

/-- Pixel insertion: skipped if the marker is already present, otherwise
the pixel markup is placed immediately before the first closing body tag
(a plain-string replace, hence first occurrence only; when no closing tag
exists the body is returned unchanged). -/
def injectPixel (host tid html : List Char) : List Char :=
  if jsIncludes html pixelMarker then html
  else replaceFirst bodyCloseTag (pixelHtml host tid ++ bodyCloseTag) html

/-- Test for a character different from the double quote, the negation of
the excluded character class of the anchor regex capture. -/
def notQuote (c : Char) : Bool := c ≠ '"'

/-- Attempts the anchor regex match at the head of the list: a less-than
sign, the letter a in either case, one or more whitespace characters, the
word href in any case, an equals sign, a double quote, a nonempty run of
non-quote characters (the captured URL), and the closing double quote.
On success returns the captured URL and the remainder after the match. -/
def tryAnchor (l : List Char) : Option (List Char × List Char) :=
  match l with
  | c0 :: c1 :: rest =>
    if c0 = '<' ∧ c1.toLower = 'a' then
      match rest.takeWhile jsWS, rest.dropWhile jsWS with
      | _ :: _, h1 :: h2 :: h3 :: h4 :: eqc :: qc :: r3 =>
        if h1.toLower = 'h' ∧ h2.toLower = 'r' ∧ h3.toLower = 'e' ∧
            h4.toLower = 'f' ∧ eqc = '=' ∧ qc = '"' then
          match r3.takeWhile notQuote, r3.dropWhile notQuote with
          | u0 :: us, _ :: r4 => some (u0 :: us, r4)
          | _, _ => none
        else none
      | _, _ => none
    else none
  | _ => none

/-- The rewritten anchor opening emitted for a captured URL. -/
def anchorRepl (host tid u : List Char) : List Char :=
  "<a href=\"".data ++ trackingClickUrl host tid u ++ ['"']

/-- The anchor-rewriting scan of the body, the embedding of the global
regex replace over anchors in sendEmail.  Fuel-based structural recursion;
the fuel is always the length of the list. -/
def linkScanF (host tid : List Char) : Nat → List Char → List Char
  | _, [] => []
  | 0, _ :: _ => []
  | n + 1, c :: rest =>
    match tryAnchor (c :: rest) with
    | some pr => anchorRepl host tid pr.1 ++ linkScanF host tid n pr.2
    | none => c :: linkScanF host tid n rest

/-- Anchor rewriting over the whole body. -/
def rewriteLinks (host tid l : List Char) : List Char :=
  linkScanF host tid l.length l

/-- The complete tracking injection performed inside sendEmail: pixel
insertion followed by anchor rewriting. -/
def injectTracking (host tid html : List Char) : List Char :=
  rewriteLinks host tid (injectPixel host tid html)

/-- The source text of one anchor opening as matched by the regex: tag
letter, whitespace run, href in some case, equals, quote, URL, quote. -/
def anchorText (aC : Char) (ws hr u : List Char) : List Char :=
  '<' :: aC :: (ws ++ hr ++ '=' :: '"' :: (u ++ ['"']))

/-- One literal segment followed by one anchor of the body, used to state
the link-rewriting property. -/
structure AnchorPart where
  seg : List Char
  aC : Char
  ws : List Char
  hr : List Char
  u : List Char

/-- The body text denoted by a list of parts followed by a closing
segment. -/
def renderParts (parts : List AnchorPart) (tail : List Char) : List Char :=
  match parts with
  | [] => tail
  | p :: rest => p.seg ++ anchorText p.aC p.ws p.hr p.u ++ renderParts rest tail

/-- The same body with every anchor opening rewritten to the redirect
endpoint. -/
def renderRewritten (host tid : List Char) (parts : List AnchorPart)
    (tail : List Char) : List Char :=
  match parts with
  | [] => tail
  | p :: rest =>
    p.seg ++ anchorRepl host tid p.u ++ renderRewritten host tid rest tail

/-- No anchor match starts at any position of the segment when it is
followed by the given continuation. -/
def noAnchorIn (l cont : List Char) : Bool :=
  (List.range l.length).all (fun i => (tryAnchor (l.drop i ++ cont)).isNone)

/-- Well-formedness of one anchor part: the tag letter lowers to a, the
whitespace run is nonempty whitespace, the attribute word lowers to href,
and the URL is a nonempty quote-free run. -/
def partOk (p : AnchorPart) : Bool :=
  (p.aC.toLower = 'a') && (!p.ws.isEmpty) && p.ws.all jsWS &&
    (p.hr.map Char.toLower = "href".data : Bool) && (!p.u.isEmpty) &&
    p.u.all notQuote

/-- Well-formedness of a decomposition of the body into literal segments
and anchors: every part is well formed, no anchor match starts inside a
literal segment, and none starts inside the closing segment. -/
def segsOk (parts : List AnchorPart) (tail : List Char) : Bool :=
  match parts with
  | [] => noAnchorIn tail []
  | p :: rest =>
    partOk p &&
      noAnchorIn p.seg (anchorText p.aC p.ws p.hr p.u ++ renderParts rest tail) &&
      segsOk rest tail

/-! ## Claim C8: tracking injection -/

/-- Concrete host used by the C8 witness and counterexample. -/
def c8host : List Char := "localhost".data

/-- Concrete tracking id used by the C8 witness and counterexample. -/
def c8tid : List Char := "tid123".data

/-- Concrete body that already contains a rewritten link. -/
def c8cHtml : List Char :=
  "<body><a href=\"http://e.com/\">x</a></body>".data

/-- Concrete body containing a pixel marker already. -/
def c8wHtmlPixel : List Char := "<body>x tracking-pixel y</body>".data

/-- Concrete prefix before the closing body tag. -/
def c8wPre : List Char := "<body>hello ".data

/-- Concrete plain body: prefix, closing tag, empty suffix. -/
def c8wHtml : List Char := c8wPre ++ bodyCloseTag ++ []

/-- Concrete decomposition with one literal segment and one anchor. -/
def c8wParts : List AnchorPart :=
  [⟨"<p>go</p>".data, 'a', [' '], "href".data, "http://e.com/a".data⟩]

/-- Concrete closing segment after the anchor. -/
def c8wTail : List Char := ">link</a></body>".data

/-! ## Provider selector (getSmtpProvider in the smtp-router part of
src/server/storage.ts)

The storage call getSmtpProvidersByRegion filters the snapshot to active
providers of the region and sorts ascending by priority; JavaScript sort
is stable, which the insertion sort below reproduces: an element is
inserted after all existing elements whose key is not greater. -/

/-- One SMTP provider record of the snapshot. -/
structure SmtpProvider where
  id : Nat
  name : String
  region : String
  isActive : Bool
  priority : Int
  maxSendsPerHour : Nat

deriving DecidableEq, Repr

/-- Stable insertion of an element into a key-sorted list: the element is
placed after every element whose key is less than or equal to its key,
matching the stability of the JavaScript comparator sort. -/
def insertByKey {α : Type} (key : α → Int) (x : α) : List α → List α
  | [] => [x]
  | y :: ys => if key x < key y then x :: y :: ys else y :: insertByKey key x ys

/-- Stable sort by an integer key. -/
def sortByKey {α : Type} (key : α → Int) (l : List α) : List α :=
  l.foldl (fun acc x => insertByKey key x acc) []

/-- Region derivation from the recipient address: a plus-eu tag selects
EU, a plus-apac tag selects APAC, everything else NA. -/
def deriveRegion (recipientEmail : String) : String :=
  if jsIncludes recipientEmail.data "+eu@".data then "EU"
  else if jsIncludes recipientEmail.data "+apac@".data then "APAC"
  else "NA"

/-- getSmtpProvidersByRegion from src/server/storage.ts: active providers
of the region, ascending by priority. -/
def getSmtpProvidersByRegion (ps : List SmtpProvider) (region : String) :
    List SmtpProvider :=
  sortByKey (fun p => p.priority)
    (ps.filter (fun p => p.region = region && p.isActive))

/-- getSmtpProvider from the smtp-router part of src/server/storage.ts:
derive the region, take the active region providers ascending by
priority; if none, fall back to all active providers ascending by
priority, or none at all; for volume above 1000 prefer the first provider
with hourly capacity at least the volume, falling back to the provider
with the greatest capacity; otherwise take the first region provider. -/
def getSmtpProvider (ps : List SmtpProvider) (recipientEmail : String)
    (volume : Nat) : Option SmtpProvider :=
  let region := deriveRegion recipientEmail
  let providers := getSmtpProvidersByRegion ps region
  match providers with
  | [] =>
    match ps.filter (fun p => p.isActive) with
    | [] => none
    | q :: qs => (sortByKey (fun p => p.priority) (q :: qs)).head?
  | p0 :: prest =>
    if 1000 < volume then
      match (p0 :: prest).filter (fun p => volume ≤ p.maxSendsPerHour) with
      | hp :: _ => some hp
      | [] =>
        (sortByKey (fun p => -(p.maxSendsPerHour : Int)) (p0 :: prest)).head?
    else some p0

/-! ## Rate limiter (RateLimitStore.increment and createRateLimiter in the
rate-limiter part of src/server/storage.ts) -/

/-- One window entry of the rate-limit store: hit count and reset time. -/
structure RLEntry where
  count : Nat
  resetTime : Nat

deriving DecidableEq, Repr

/-- RateLimitStore.increment for one key: a new window with count 1 when
the key is absent or its reset time is strictly in the past, otherwise an
increment of the existing count with the reset time unchanged.  The
returned record is also the stored record. -/
def rlIncrement (now windowMs : Nat) (e : Option RLEntry) : RLEntry :=
  match e with
  | none => { count := 1, resetTime := now + windowMs }
  | some r =>
    if r.resetTime < now then { count := 1, resetTime := now + windowMs }
    else { count := r.count + 1, resetTime := r.resetTime }

/-- The sequence of records returned by successive hits at the given
times, starting from the given store state for the key. -/
def rlHits (windowMs : Nat) (e : Option RLEntry) :
    List Nat → List RLEntry
  | [] => []
  | t :: ts =>
    let r := rlIncrement t windowMs e
    r :: rlHits windowMs (some r) ts

/-- The middleware decision of createRateLimiter: the request is rejected
with status 429 exactly when the returned count exceeds the rule maximum;
otherwise the request proceeds. -/
inductive RLOutcome where
  | ok
  | tooMany (status : Nat)

deriving DecidableEq, Repr

/-- createRateLimiter responds 429 when count exceeds max, else passes. -/
def rlDecision (maxReq count : Nat) : RLOutcome :=
  if maxReq < count then RLOutcome.tooMany 429 else RLOutcome.ok

/-! ## Tracking event recorder (trackEmailOpen and trackEmailClick in
src/unnamed/part_007, over the DatabaseStorage semantics of
updateEmailTracking in src/server/storage.ts) -/

/-- The tracked slice of an email record. -/
structure TrEmail where
  id : Nat
  trackingId : String
  region : String
  openedAt : Option Nat
  clickedAt : Option Nat

deriving DecidableEq, Repr

/-- Tracking type selector. -/
inductive TrType where
  | opened
  | clicked

deriving DecidableEq, Repr

/-- A stored tracking event row. -/
structure TEvent where
  emailId : Nat
  trackingId : String
  eventType : TrType
  time : Nat

deriving DecidableEq, Repr

/-- A recorded metric row. -/
structure TMetric where
  metricName : String
  region : String

deriving DecidableEq, Repr

/-- The storage state seen by the tracking recorder. -/
structure TrackSt where
  emails : List TrEmail
  events : List TEvent
  metrics : List TMetric

deriving DecidableEq, Repr

/-- Whether the update-where clause of updateEmailTracking selects the
row: matching tracking id and a null timestamp of the given type. -/
def trMatches (ty : TrType) (tid : String) (e : TrEmail) : Bool :=
  e.trackingId = tid &&
    (match ty with
     | TrType.opened => e.openedAt = none
     | TrType.clicked => e.clickedAt = none)

/-- The row update applied by updateEmailTracking: set the timestamp of
the given type to now. -/
def trApply (now : Nat) (ty : TrType) (e : TrEmail) : TrEmail :=
  match ty with
  | TrType.opened => { e with openedAt := some now }
  | TrType.clicked => { e with clickedAt := some now }

/-- DatabaseStorage.updateEmailTracking: update every row with the
tracking id whose timestamp of the given type is still null, return the
first updated row or none, and append one tracking event exactly when a
row was updated. -/
def updateEmailTracking (now : Nat) (tid : String) (ty : TrType)
    (st : TrackSt) : Option TrEmail × TrackSt :=
  let emails2 := st.emails.map
    (fun e => if trMatches ty tid e then trApply now ty e else e)
  match (st.emails.filter (trMatches ty tid)).head? with
  | some row =>
    let ue := trApply now ty row
    (some ue,
      { st with
          emails := emails2,
          events := st.events ++
            [{ emailId := ue.id, trackingId := tid, eventType := ty,
               time := now }] })
  | none => (none, { st with emails := emails2 })

/-- getEmailByTrackingId: the first email with the tracking id. -/
def getEmailByTrackingId (tid : String) (st : TrackSt) : Option TrEmail :=
  st.emails.find? (fun e => e.trackingId = tid)

/-- The result record of trackEmailOpen. -/
structure TrackOpenResult where
  success : Bool
  alreadyTracked : Bool
  emailId : Option Nat

deriving DecidableEq, Repr

/-- trackEmailOpen from src/unnamed/part_007: look the email up by
tracking id; if absent report failure; if already opened report already
tracked without touching the store; otherwise update the tracking state
and record a metric. -/
def trackEmailOpen (now : Nat) (tid : String) (st : TrackSt) :
    TrackOpenResult × TrackSt :=
  match getEmailByTrackingId tid st with
  | none => ({ success := false, alreadyTracked := false, emailId := none }, st)
  | some email =>
    if email.openedAt.isSome then
      ({ success := true, alreadyTracked := true, emailId := some email.id },
        st)
    else
      match updateEmailTracking now tid TrType.opened st with
      | (none, st2) =>
        ({ success := false, alreadyTracked := false, emailId := none }, st2)
      | (some _, st2) =>
        ({ success := true, alreadyTracked := false, emailId := some email.id },
          { st2 with
              metrics := st2.metrics ++
                [{ metricName := "email_opened", region := email.region }] })

/-- The result record of trackEmailClick. -/
structure TrackClickResult where
  success : Bool
  alreadyTracked : Bool
  emailId : Option Nat
  redirectUrl : String

deriving DecidableEq, Repr

/-- trackEmailClick from src/unnamed/part_007: the redirect target is the
given url, or the root path when the url is empty; an unknown tracking id
returns without touching the store; otherwise the click update always
runs, a metric is recorded only on a first click, and the redirect target
is returned in every case. -/
def trackEmailClick (now : Nat) (tid : String) (url : String)
    (st : TrackSt) : TrackClickResult × TrackSt :=
  let redirectUrl := orStr url "/"
  match getEmailByTrackingId tid st with
  | none =>
    ({ success := false, alreadyTracked := false, emailId := none,
       redirectUrl := redirectUrl }, st)
  | some email =>
    let (upd, st2) := updateEmailTracking now tid TrType.clicked st
    let alreadyTracked := email.clickedAt.isSome
    let st3 :=
      if upd.isSome && !alreadyTracked then
        { st2 with
            metrics := st2.metrics ++
              [{ metricName := "email_clicked", region := email.region }] }
      else st2
    ({ success := upd.isSome, alreadyTracked := alreadyTracked,
       emailId := some email.id, redirectUrl := redirectUrl }, st3)

/-- Error-injection points for the storage calls inside trackEmailClick:
the lookup, the tracking update, or the metric write can throw. -/
inductive ClickFail where
  | atLookup
  | atUpdate
  | atMetric

deriving DecidableEq, Repr

/-- trackEmailClick with a storage error injected at the given point: the
catch branch of the source returns a failure result whose redirect target
is still the given url, or the root path when the url is empty.  State
changes made before the failing call persist. -/
def trackEmailClickE (fail : Option ClickFail) (now : Nat) (tid : String)
    (url : String) (st : TrackSt) : TrackClickResult × TrackSt :=
  match fail with
  | none => trackEmailClick now tid url st
  | some ClickFail.atLookup =>
    ({ success := false, alreadyTracked := false, emailId := none,
       redirectUrl := orStr url "/" }, st)
  | some ClickFail.atUpdate =>
    match getEmailByTrackingId tid st with
    | none =>
      ({ success := false, alreadyTracked := false, emailId := none,
         redirectUrl := orStr url "/" }, st)
    | some _ =>
      ({ success := false, alreadyTracked := false, emailId := none,
         redirectUrl := orStr url "/" }, st)
  | some ClickFail.atMetric =>
    match getEmailByTrackingId tid st with
    | none =>
      ({ success := false, alreadyTracked := false, emailId := none,
         redirectUrl := orStr url "/" }, st)
    | some _ =>
      let (_, st2) := updateEmailTracking now tid TrType.clicked st
      ({ success := false, alreadyTracked := false, emailId := none,
         redirectUrl := orStr url "/" }, st2)

/-- One tracking operation, for stating invariants over sequences. -/
inductive TrOp where
  | openOp (now : Nat) (tid : String)
  | clickOp (now : Nat) (tid : String) (url : String)

deriving DecidableEq, Repr

/-- Application of one tracking operation to the store. -/
def applyTrOp (op : TrOp) (st : TrackSt) : TrackSt :=
  match op with
  | TrOp.openOp now tid => (trackEmailOpen now tid st).2
  | TrOp.clickOp now tid url => (trackEmailClick now tid url st).2

/-- Application of a sequence of tracking operations. -/
def applyTrOps (ops : List TrOp) (st : TrackSt) : TrackSt :=
  ops.foldl (fun st op => applyTrOp op st) st

/-! ## Send pipeline (processEmailSend and checkRegionCompliance in
src/server/services/email.ts, checkRegionCompliance in
src/server/services/compliance.ts, sendEmail and the connection pool in
the smtp-router part of src/server/storage.ts)

Storage calls that can throw are modelled by boolean error-injection
flags in the world; the per-send random tracking id is a world field.
Fire-and-forget metric writes, whose failures the source absorbs with a
catch on the promise, are not part of the observable state. -/

/-- One blocked-region record. -/
structure BlockedRegion where
  id : Nat
  regionCode : String
  reason : String
  isActive : Bool

deriving DecidableEq, Repr

/-- One stored template record. -/
structure Template where
  id : Nat
  name : String
  subject : String
  htmlContent : String
  textContent : String

deriving DecidableEq, Repr

/-- The world of one processEmailSend run: the storage snapshot, the
fresh tracking id, and error-injection flags for each storage or
transport call. -/
structure SendWorld where
  blockedRegions : List BlockedRegion
  templates : List Template
  providers : List SmtpProvider
  host : List Char
  freshTrackingId : String
  blockedLookupFails : Bool
  templateLookupFails : Bool
  providerLookupFails : Bool
  createFails : Bool
  updateFails : Bool
  connVerifyFails : Bool
  transportFails : Bool
  transportError : String
  messageId : String

/-- A send request after zod validation: region defaults to Global and
volume to 1; html, text, templateId and variables stay optional.  The
metadata field does not influence the pipeline and is omitted. -/
structure SendReq where
  toAddr : String
  fromAddr : String
  subject : String
  html : Option String
  text : Option String
  templateId : Option Nat
  varsMap : Option (String → Option String)
  region : String
  volume : Nat

/-- The variables record passed to processTemplate, defaulting to the
empty record. -/
def varsOf (req : SendReq) : String → Option String :=
  match req.varsMap with
  | some v => v
  | none => fun _ => none

/-- An email record as persisted by createEmail. -/
structure Email where
  id : Nat
  toAddr : String
  fromAddr : String
  subject : String
  templateId : Option Nat
  smtpProviderId : Nat
  region : String
  trackingId : String
  status : String

deriving DecidableEq, Repr

/-- One message handed to the transport, with the injected body. -/
structure SentMsg where
  toAddr : String
  fromAddr : String
  subject : String
  html : List Char
  text : String

deriving DecidableEq, Repr

/-- Observable events of one pipeline run, in order. -/
inductive Ev where
  | complianceCheck
  | templateRender
  | providerSelect
  | emailCreate (id : Nat)
  | connAcquire (pid : Nat)
  | transportSend
  | statusUpdate (id : Nat) (status : String)

deriving DecidableEq, Repr

/-- The mutable state of one pipeline run: stored emails, the id counter,
the connection pool contents, the transport log, and the event trace. -/
structure PipeSt where
  emails : List Email
  nextId : Nat
  pool : List Nat
  sentMessages : List SentMsg
  trace : List Ev

deriving DecidableEq, Repr

/-- Appends one event to the trace. -/
def emit (e : Ev) (st : PipeSt) : PipeSt :=
  { st with trace := st.trace ++ [e] }

/-- getBlockedRegionByCode of the storage: finds an active blocked region
with the code, or throws when the error flag is set. -/
def getBlockedRegionByCodeE (w : SendWorld) (code : String) :
    Except String (Option BlockedRegion) :=
  if w.blockedLookupFails then Except.error "blocked region lookup failed"
  else Except.ok (w.blockedRegions.find?
    (fun r => r.regionCode = code && r.isActive))

/-- The marker table of the address heuristic in checkRegionCompliance of
src/server/services/email.ts, in source order. -/
def countryMarkers : List (String × String) :=
  [("cu", "CU"), ("ir", "IR"), ("kp", "KP"), ("sy", "SY"), ("ua", "UA")]

/-- Whether the lowercased address carries the marker: a plus tag before
the at sign, or a dot tag. -/
def markerMatches (toAddr : String) (m : String) : Bool :=
  jsIncludes (strToLower toAddr).data ("+" ++ m ++ "@").data ||
    jsIncludes (strToLower toAddr).data ("." ++ m).data

/-- The marker loop of checkRegionCompliance in
src/server/services/email.ts: for each matching marker look the code up;
the first active blocked region found blocks the send with its reason;
a lookup error propagates. -/
def complianceLoop (w : SendWorld) (toAddr : String) :
    List (String × String) → Except String (Option String)
  | [] => Except.ok none
  | (m, code) :: rest =>
    if markerMatches toAddr m then
      match getBlockedRegionByCodeE w code with
      | Except.error e => Except.error e
      | Except.ok (some b) => Except.ok (some b.reason)
      | Except.ok none => complianceLoop w toAddr rest
    else complianceLoop w toAddr rest

/-- The address resolves to an active blocked region: some marker matches
the address and its code has an active blocked-region record. -/
def resolvesBlocked (w : SendWorld) (toAddr : String) : Bool :=
  countryMarkers.any (fun mc =>
    markerMatches toAddr mc.1 &&
      (w.blockedRegions.find?
        (fun r => r.regionCode = mc.2 && r.isActive)).isSome)

/-- The result of the compliance service check in
src/server/services/compliance.ts. -/
structure CompCheck where
  allowed : Bool
  code : Option String
  reason : Option String

deriving DecidableEq, Repr

/-- checkRegionCompliance from src/server/services/compliance.ts: blocked
when an active blocked region with the code exists; on a lookup error the
check fails closed with a system-error reason. -/
def checkRegionComplianceSvc (w : SendWorld) (regionCode : String) :
    CompCheck :=
  match getBlockedRegionByCodeE w regionCode with
  | Except.error _ =>
    { allowed := false, code := some regionCode,
      reason := some "System error during compliance check" }
  | Except.ok (some b) =>
    if b.isActive then
      { allowed := false, code := some b.regionCode, reason := some b.reason }
    else { allowed := true, code := none, reason := none }
  | Except.ok none => { allowed := true, code := none, reason := none }

/-- The structured result of processEmailSend. -/
structure SendResult where
  success : Bool
  emailId : Option Nat
  trackingId : Option String
  message : String
  error : Option String

deriving DecidableEq, Repr

/-- The structured result of the router sendEmail. -/
structure RouterResult where
  success : Bool
  messageId : Option String
  providerId : Option Nat
  error : Option String

deriving DecidableEq, Repr

/-- The connection pool acquire: a cached session is reused, otherwise a
new session is created and verified (verification can fail) and cached;
either way the acquisition is an observable event. -/
def getConnection (w : SendWorld) (pid : Nat) (st : PipeSt) :
    Except String Unit × PipeSt :=
  if pid ∈ st.pool then (Except.ok (), emit (Ev.connAcquire pid) st)
  else
    let st2 := emit (Ev.connAcquire pid) st
    if w.connVerifyFails then (Except.error "connection verify failed", st2)
    else (Except.ok (), { st2 with pool := st2.pool ++ [pid] })

/-- sendEmail from the smtp-router part of src/server/storage.ts: select
the provider again, acquire a pooled connection, inject tracking into the
HTML, and submit; every internal error is caught and returned as a
failure result. -/
def sendEmailRouter (w : SendWorld) (toAddr fromAddr subject : String)
    (html text : String) (trackingId : String) (volume : Nat)
    (st : PipeSt) : RouterResult × PipeSt :=
  let vol := orNat volume 1
  let st1 := emit Ev.providerSelect st
  if w.providerLookupFails then
    ({ success := false, messageId := none, providerId := none,
       error := some "provider lookup failed" }, st1)
  else
    match getSmtpProvider w.providers toAddr vol with
    | none =>
      ({ success := false, messageId := none, providerId := none,
         error := some "No suitable SMTP provider found" }, st1)
    | some provider =>
      match getConnection w provider.id st1 with
      | (Except.error e, st2) =>
        ({ success := false, messageId := none, providerId := none,
           error := some e }, st2)
      | (Except.ok _, st2) =>
        let html2 := injectTracking w.host trackingId.data html.data
        let st3 := emit Ev.transportSend
          { st2 with
              sentMessages := st2.sentMessages ++
                [{ toAddr := toAddr, fromAddr := fromAddr,
                   subject := subject, html := html2, text := text }] }
        if w.transportFails then
          ({ success := false, messageId := none, providerId := none,
             error := some w.transportError }, st3)
        else
          ({ success := true, messageId := some w.messageId,
             providerId := some provider.id, error := none }, st3)

/-- The template paragraph of processEmailSend: with a truthy templateId
the template is fetched (a missing template short-circuits with a
not-found result) and both bodies are rendered; otherwise the request
bodies are used with empty-string defaults. -/
def contentStep (w : SendWorld) (req : SendReq) :
    Except String (Sum SendResult (String × String)) :=
  match req.templateId with
  | some tid =>
    if tid ≠ 0 then
      if w.templateLookupFails then Except.error "template lookup failed"
      else
        match w.templates.find? (fun t => t.id = tid) with
        | none =>
          Except.ok (Sum.inl
            { success := false, emailId := none, trackingId := none,
              message := "Template not found",
              error := some ("Template with ID " ++ toString tid ++
                " does not exist") })
        | some t =>
          Except.ok (Sum.inr
            (processTemplate t.htmlContent (varsOf req),
              processTemplate t.textContent (varsOf req)))
    else Except.ok (Sum.inr (orElseStr req.html "", orElseStr req.text ""))
  | none => Except.ok (Sum.inr (orElseStr req.html "", orElseStr req.text ""))

/-- The render events emitted by the template paragraph: one render event
exactly when a template is found and rendered. -/
def renderEvents (w : SendWorld) (req : SendReq) : List Ev :=
  match req.templateId with
  | some tid =>
    if tid ≠ 0 && !w.templateLookupFails &&
        (w.templates.find? (fun t => t.id = tid)).isSome then
      [Ev.templateRender]
    else []
  | none => []

/-- updateEmailStatus on the pipeline state: sets the status of the email
with the id. -/
def setStatus (id : Nat) (status : String) (st : PipeSt) : PipeSt :=
  { st with
      emails := st.emails.map
        (fun e => if e.id = id then { e with status := status } else e) }

/-- processEmailSend from src/server/services/email.ts before its
top-level catch: compliance gate, template rendering, content check,
provider selection, record creation with status sent, transport through
the router, and the status update reflecting the transport outcome.
Uncaught storage errors propagate as exceptions. -/
def processEmailSendE (w : SendWorld) (req : SendReq) (st : PipeSt) :
    Except String SendResult × PipeSt :=
  let st1 := emit Ev.complianceCheck st
  match complianceLoop w req.toAddr countryMarkers with
  | Except.error e => (Except.error e, st1)
  | Except.ok (some reason) =>
    (Except.ok
      { success := false, emailId := none, trackingId := none,
        message := "Recipient is in a blocked region",
        error := some ("Compliance violation: " ++ reason) }, st1)
  | Except.ok none =>
    let tid := w.freshTrackingId
    match contentStep w req with
    | Except.error e => (Except.error e, st1)
    | Except.ok (Sum.inl early) => (Except.ok early, st1)
    | Except.ok (Sum.inr ht) =>
      let st2 := { st1 with trace := st1.trace ++ renderEvents w req }
      if ht.1 = "" && ht.2 = "" then
        (Except.ok
          { success := false, emailId := none, trackingId := none,
            message := "Email content is required",
            error := some "Either html, text, or templateId must be provided" },
          st2)
      else
        let st3 := emit Ev.providerSelect st2
        if w.providerLookupFails then
          (Except.error "provider lookup failed", st3)
        else
          match getSmtpProvider w.providers req.toAddr (orNat req.volume 1) with
          | none =>
            (Except.ok
              { success := false, emailId := none, trackingId := none,
                message := "No suitable SMTP provider available",
                error :=
                  some "Failed to find an active SMTP provider for this request" },
              st3)
          | some provider =>
            if w.createFails then (Except.error "create email failed", st3)
            else
              let id := st3.nextId
              let rec0 : Email :=
                { id := id, toAddr := req.toAddr, fromAddr := req.fromAddr,
                  subject := req.subject, templateId := req.templateId,
                  smtpProviderId := provider.id,
                  region := orStr req.region provider.region,
                  trackingId := tid, status := "sent" }
              let st4 := emit (Ev.emailCreate id)
                { st3 with emails := st3.emails ++ [rec0], nextId := id + 1 }
              let srpair := sendEmailRouter w req.toAddr req.fromAddr req.subject
                (orStr ht.1 "<p>This email does not have HTML content</p>")
                (orStr ht.2 "This email does not have text content")
                tid req.volume st4
              if srpair.1.success then
                if w.updateFails then
                  (Except.error "status update failed", srpair.2)
                else
                  (Except.ok
                    { success := true, emailId := some id,
                      trackingId := some tid,
                      message := "Email sent successfully", error := none },
                    emit (Ev.statusUpdate id "sent")
                      (setStatus id "sent" srpair.2))
              else
                if w.updateFails then
                  (Except.error "status update failed", srpair.2)
                else
                  (Except.ok
                    { success := false, emailId := some id,
                      trackingId := some tid,
                      message := "Failed to send email",
                      error := srpair.1.error },
                    emit (Ev.statusUpdate id "failed")
                      (setStatus id "failed" srpair.2))

/-- processEmailSend with its top-level catch: an exception from any
internal step becomes a structured failure result, so the function never
throws past its boundary. -/
def processEmailSend (w : SendWorld) (req : SendReq) (st : PipeSt) :
    SendResult × PipeSt :=
  match processEmailSendE w req st with
  | (Except.ok r, st2) => (r, st2)
  | (Except.error e, st2) =>
    ({ success := false, emailId := none, trackingId := none,
       message := "Failed to process email request", error := some e }, st2)

/-- Concrete store with no email records, for the C7 counterexample. -/
def c7cSt : TrackSt := { emails := [], events := [], metrics := [] }

deriving instance DecidableEq for Except

/-- The blocked-region record for Cuba used by the witnesses. -/
def cuRegion : BlockedRegion :=
  { id := 1, regionCode := "CU", reason := "US Embargo", isActive := true }

/-- An empty pipeline state. -/
def emptyPipeSt : PipeSt :=
  { emails := [], nextId := 1, pool := [], sentMessages := [], trace := [] }

/-- Concrete world for the C1 witness: Cuba is an active blocked region. -/
def c1World : SendWorld :=
  { blockedRegions := [cuRegion],
    templates := [], providers := [], host := "localhost".data,
    freshTrackingId := "t1", blockedLookupFails := false,
    templateLookupFails := false, providerLookupFails := false,
    createFails := false, updateFails := false, connVerifyFails := false,
    transportFails := false, transportError := "err", messageId := "m1" }

/-- Concrete request for the C1 witness, addressed to a Cuban domain. -/
def c1Req : SendReq :=
  { toAddr := "user@mail.cu", fromAddr := "a@b.co", subject := "s",
    html := some "<p>x</p>", text := none, templateId := none,
    varsMap := none, region := "Global", volume := 1 }

/-- Concrete world for the C2 witness: the blocked-region lookup throws. -/
def c2World : SendWorld :=
  { blockedRegions := [], templates := [], providers := [],
    host := "localhost".data, freshTrackingId := "t2",
    blockedLookupFails := true, templateLookupFails := false,
    providerLookupFails := false, createFails := false, updateFails := false,
    connVerifyFails := false, transportFails := false,
    transportError := "err", messageId := "m2" }

/-- Concrete request for the C2 witness, matching the cu marker. -/
def c2Req : SendReq :=
  { toAddr := "user@mail.cu", fromAddr := "a@b.co", subject := "s",
    html := some "<p>x</p>", text := none, templateId := none,
    varsMap := none, region := "Global", volume := 1 }

/-- Concrete provider for the C3 and C4 witnesses. -/
def naProvider : SmtpProvider :=
  { id := 7, name := "Amazon SES (NA)", region := "NA", isActive := true,
    priority := 1, maxSendsPerHour := 5000 }

/-- Concrete world for the C3 witness: one active provider, transport
fails. -/
def c3World : SendWorld :=
  { blockedRegions := [], templates := [], providers := [naProvider],
    host := "localhost".data, freshTrackingId := "t3",
    blockedLookupFails := false, templateLookupFails := false,
    providerLookupFails := false, createFails := false, updateFails := false,
    connVerifyFails := false, transportFails := true,
    transportError := "SMTP connection refused", messageId := "m3" }

/-- Concrete request for the C3 witness. -/
def c3Req : SendReq :=
  { toAddr := "user@example.com", fromAddr := "a@b.co", subject := "s",
    html := some "<body>x</body>", text := none, templateId := none,
    varsMap := none, region := "Global", volume := 1 }

/-- Concrete tracked email for the C6 witness: already opened at time 5. -/
def c6Email : TrEmail :=
  { id := 1, trackingId := "tid1", region := "NA", openedAt := some 5,
    clickedAt := none }

/-- Concrete store for the C6 witness. -/
def c6St : TrackSt := { emails := [c6Email], events := [], metrics := [] }

/-- Concrete tracked email for the C7 witness: not clicked yet. -/
def c7wEmail : TrEmail :=
  { id := 1, trackingId := "t", region := "NA", openedAt := none,
    clickedAt := none }

/-- Concrete store for the C7 witness. -/
def c7wSt : TrackSt := { emails := [c7wEmail], events := [], metrics := [] }

theorem dropWhile_length_le (p : Char → Bool) (l : List Char) :
    (l.dropWhile p).length ≤ l.length := by
  induction l with
  | nil => simp [List.dropWhile]
  | cons c rest ih =>
    simp only [List.dropWhile]
    split
    · exact Nat.le_succ_of_le ih
    · simp

theorem tmplStep_rem_lt (v : String → Option String) (l : List Char)
    (pr : List Char × List Char) (h : tmplStep v l = some pr) :
    pr.2.length < l.length := by
  match l with
  | [] => simp [tmplStep] at h
  | [c] => simp [tmplStep] at h
  | c1 :: c2 :: rest =>
    simp only [tmplStep] at h
    by_cases hc : c1 = lb ∧ c2 = lb
    · rw [if_pos hc] at h
      have hlen : (rest.dropWhile notRb).length ≤ rest.length :=
        dropWhile_length_le _ _
      rcases htw : rest.takeWhile notRb with _ | ⟨r0, rs⟩ <;>
        rcases hdw : rest.dropWhile notRb with _ | ⟨d1, _ | ⟨d2, rem⟩⟩ <;>
          rw [htw, hdw] at h <;> simp only [] at h
      · cases h
      · cases h
      · cases h
      · cases h
      · cases h
      · by_cases hd : d1 = rb ∧ d2 = rb
        · rw [if_pos hd] at h
          have hpr : pr.2 = rem := by
            cases h
            rfl
          rw [hdw] at hlen
          simp only [List.length_cons] at hlen
          simp only [hpr, List.length_cons]
          omega
        · rw [if_neg hd] at h
          cases h
    · rw [if_neg hc] at h
      cases h

theorem scanTF_fuel (v : String → Option String) :
    ∀ n m l, l.length ≤ n → l.length ≤ m → scanTF v n l = scanTF v m l := by
  intro n
  induction n with
  | zero =>
    intro m l hn _
    have : l = [] := List.length_eq_zero.mp (Nat.le_zero.mp hn)
    subst this
    cases m <;> rfl
  | succ n ih =>
    intro m l hn hm
    rcases l with _ | ⟨c, rest⟩
    · cases m <;> rfl
    · rcases m with _ | m
      · simp at hm
      · simp only [scanTF]
        cases hstep : tmplStep v (c :: rest) with
        | some pr =>
          have hlt : pr.2.length < rest.length + 1 :=
            tmplStep_rem_lt v (c :: rest) pr hstep
          simp only [List.length_cons] at hn hm
          show pr.1 ++ scanTF v n pr.2 = pr.1 ++ scanTF v m pr.2
          rw [ih m pr.2 (by omega) (by omega)]
        | none =>
          simp only [List.length_cons] at hn hm
          show c :: scanTF v n rest = c :: scanTF v m rest
          rw [ih m rest (by omega) (by omega)]

theorem scanT_nil (v : String → Option String) : scanT v [] = [] := rfl

theorem scanT_match (v : String → Option String) (l : List Char)
    (repl rem : List Char) (h : tmplStep v l = some (repl, rem)) :
    scanT v l = repl ++ scanT v rem := by
  rcases l with _ | ⟨c, rest⟩
  · simp [tmplStep] at h
  · show scanTF v (rest.length + 1) (c :: rest) = _
    simp only [scanTF, h]
    have hlt : rem.length < rest.length + 1 :=
      tmplStep_rem_lt v (c :: rest) (repl, rem) h
    rw [scanTF_fuel v rest.length rem.length rem (by omega) le_rfl]
    rfl

theorem scanT_none (v : String → Option String) (c : Char) (rest : List Char)
    (h : tmplStep v (c :: rest) = none) :
    scanT v (c :: rest) = c :: scanT v rest := by
  show scanTF v (rest.length + 1) (c :: rest) = _
  simp only [scanTF, h]
  rfl

theorem takeWhile_append_all (p : Char → Bool) (a b : List Char)
    (h : ∀ c ∈ a, p c = true) :
    (a ++ b).takeWhile p = a ++ b.takeWhile p := by
  induction a with
  | nil => simp
  | cons c a ih =>
    simp only [List.cons_append, List.takeWhile]
    rw [h c (by simp)]
    simp only [List.cons.injEq, true_and]
    exact ih (fun c hc => h c (by simp [hc]))

theorem dropWhile_append_all (p : Char → Bool) (a b : List Char)
    (h : ∀ c ∈ a, p c = true) :
    (a ++ b).dropWhile p = b.dropWhile p := by
  induction a with
  | nil => simp
  | cons c a ih =>
    simp only [List.cons_append, List.dropWhile]
    rw [h c (by simp)]
    exact ih (fun c hc => h c (by simp [hc]))

theorem mem_takeWhile_sat (p : Char → Bool) (l : List Char) (c : Char)
    (h : c ∈ l.takeWhile p) : p c = true := by
  induction l with
  | nil => simp [List.takeWhile] at h
  | cons d l ih =>
    simp only [List.takeWhile] at h
    by_cases hd : p d = true
    · rw [hd] at h
      simp only [List.mem_cons] at h
      rcases h with h | h
      · rw [h]; exact hd
      · exact ih h
    · simp [Bool.not_eq_true] at hd
      rw [hd] at h
      simp at h

theorem tmplStep_fst_ne (v : String → Option String) (c : Char)
    (r : List Char) (h : c ≠ lb) : tmplStep v (c :: r) = none := by
  match r with
  | [] => simp [tmplStep]
  | c2 :: rest => simp [tmplStep, h]

theorem tmplStep_snd_ne (v : String → Option String) (c1 c2 : Char)
    (r : List Char) (h : c2 ≠ lb) : tmplStep v (c1 :: c2 :: r) = none := by
  simp [tmplStep, h]

theorem tmplStep_one (v : String → Option String) (c : Char) :
    tmplStep v [c] = none := by
  simp [tmplStep]

theorem tmplStep_full (v : String → Option String) (r0 : Char)
    (rs tail : List Char) (hall : ∀ c ∈ r0 :: rs, notRb c = true) :
    tmplStep v (lb :: lb :: ((r0 :: rs) ++ rb :: rb :: tail)) =
      some (replOf v (r0 :: rs), tail) := by
  have htw : ((r0 :: rs) ++ rb :: rb :: tail).takeWhile notRb = r0 :: rs := by
    rw [takeWhile_append_all _ _ _ hall]
    have : notRb rb = false := by simp [notRb]
    simp [List.takeWhile, this]
  have hdw : ((r0 :: rs) ++ rb :: rb :: tail).dropWhile notRb =
      rb :: rb :: tail := by
    rw [dropWhile_append_all _ _ _ hall]
    have : notRb rb = false := by simp [notRb]
    simp [List.dropWhile, this]
  simp only [tmplStep, htw, hdw]
  simp

theorem tmplStep_inv (v : String → Option String) (l : List Char)
    (repl rem : List Char) (h : tmplStep v l = some (repl, rem)) :
    ∃ run, run ≠ [] ∧ (∀ c ∈ run, notRb c = true) ∧
      repl = replOf v run ∧ l = lb :: lb :: (run ++ rb :: rb :: rem) := by
  match l with
  | [] => simp [tmplStep] at h
  | [c] => simp [tmplStep] at h
  | c1 :: c2 :: rest =>
    simp only [tmplStep] at h
    by_cases hc : c1 = lb ∧ c2 = lb
    · rw [if_pos hc] at h
      rcases htw : rest.takeWhile notRb with _ | ⟨r0, rs⟩ <;>
        rcases hdw : rest.dropWhile notRb with _ | ⟨d1, _ | ⟨d2, rem2⟩⟩ <;>
          rw [htw, hdw] at h <;> simp only [] at h
      · cases h
      · cases h
      · cases h
      · cases h
      · cases h
      · by_cases hd : d1 = rb ∧ d2 = rb
        · rw [if_pos hd] at h
          obtain ⟨hrepl, hrem⟩ : replOf v (r0 :: rs) = repl ∧ rem2 = rem := by
            cases h; exact ⟨rfl, rfl⟩
          refine ⟨r0 :: rs, by simp, ?_, hrepl.symm, ?_⟩
          · intro c hcmem
            rw [← htw] at hcmem
            exact mem_takeWhile_sat _ _ _ hcmem
          · have hrest : rest = (r0 :: rs) ++ rb :: rb :: rem := by
              have := List.takeWhile_append_dropWhile (p := notRb) (l := rest)
              rw [htw, hdw] at this
              rw [← this, hd.1, hd.2, hrem]
            rw [hc.1, hc.2, hrest]
        · rw [if_neg hd] at h
          cases h
    · rw [if_neg hc] at h
      cases h

theorem scanT_append_ne_lb (v : String → Option String) (a s : List Char)
    (h : ∀ c ∈ a, c ≠ lb) : scanT v (a ++ s) = a ++ scanT v s := by
  induction a with
  | nil => simp
  | cons c a ih =>
    have hstep : tmplStep v (c :: (a ++ s)) = none :=
      tmplStep_fst_ne v c _ (h c (by simp))
    have hca : (c :: a) ++ s = c :: (a ++ s) := rfl
    rw [hca, scanT_none v c _ hstep, ih (fun d hd => h d (by simp [hd]))]
    rfl

theorem dropWhile_all_nil (p : Char → Bool) (l : List Char)
    (h : ∀ c ∈ l, p c = true) : l.dropWhile p = [] := by
  induction l with
  | nil => simp
  | cons c l ih =>
    simp only [List.dropWhile]
    rw [h c (by simp)]
    exact ih (fun c hc => h c (by simp [hc]))

theorem tmplStep_no_rb (v : String → Option String) (l : List Char)
    (h : rb ∉ l) : tmplStep v l = none := by
  match l with
  | [] => simp [tmplStep]
  | [c] => simp [tmplStep]
  | c1 :: c2 :: rest =>
    have hall : ∀ c ∈ rest, notRb c = true := by
      intro c hc
      simp only [notRb, ne_eq, decide_eq_true_eq]
      intro hcrb
      exact h (by simp [hcrb ▸ hc])
    have hdw : rest.dropWhile notRb = [] := dropWhile_all_nil _ _ hall
    simp only [tmplStep, hdw]
    rcases rest.takeWhile notRb with _ | ⟨r0, rs⟩ <;> simp

theorem scanT_no_rb (v : String → Option String) (l : List Char)
    (h : rb ∉ l) : scanT v l = l := by
  induction l with
  | nil => exact scanT_nil v
  | cons c rest ih =>
    rw [scanT_none v c rest (tmplStep_no_rb v _ h)]
    rw [ih (fun hc => h (by simp [hc]))]

theorem rb_ne_lb : rb ≠ lb := by decide

theorem tmplStep_mid_none (v : String → Option String) (m rem2 : List Char)
    (hm : ∀ c ∈ m, notRb c = true)
    (hnext : rem2 = [] ∨ ∃ f r3, rem2 = f :: r3 ∧ f ≠ rb) :
    tmplStep v (m ++ rb :: rem2) = none := by
  match m with
  | [] =>
    exact tmplStep_fst_ne v rb rem2 rb_ne_lb
  | [c] =>
    exact tmplStep_snd_ne v c rb rem2 rb_ne_lb
  | c1 :: c2 :: m2 =>
    by_cases hc : c1 = lb ∧ c2 = lb
    · have hm2 : ∀ c ∈ m2, notRb c = true := by
        intro c hc2
        exact hm c (by simp [hc2])
      have hmrb : notRb rb = false := by simp [notRb]
      have htw : (m2 ++ rb :: rem2).takeWhile notRb = m2 := by
        rw [takeWhile_append_all _ _ _ hm2]
        simp [List.takeWhile, hmrb]
      have hdw : (m2 ++ rb :: rem2).dropWhile notRb = rb :: rem2 := by
        rw [dropWhile_append_all _ _ _ hm2]
        simp [List.dropWhile, hmrb]
      have hshape : (c1 :: c2 :: m2) ++ rb :: rem2 =
          c1 :: c2 :: (m2 ++ rb :: rem2) := rfl
      rw [hshape]
      simp only [tmplStep, htw, hdw]
      rcases hnext with hnil | ⟨f, r3, hfr, hf⟩
      · subst hnil
        rcases m2 with _ | ⟨r0, rs⟩ <;> simp
      · subst hfr
        have hfd : ¬(rb = rb ∧ f = rb) := by
          intro hcon
          exact hf hcon.2
        rcases m2 with _ | ⟨r0, rs⟩ <;> simp [hfd, hf]
    · rcases not_and_or.mp hc with h1 | h2
      · exact tmplStep_fst_ne v c1 _ h1
      · exact tmplStep_snd_ne v c1 c2 _ h2

theorem scanT_mid (v : String → Option String) (m rem2 : List Char)
    (hm : ∀ c ∈ m, notRb c = true)
    (hnext : rem2 = [] ∨ ∃ f r3, rem2 = f :: r3 ∧ f ≠ rb) :
    scanT v (m ++ rb :: rem2) = m ++ rb :: scanT v rem2 := by
  induction m with
  | nil =>
    rw [List.nil_append, List.nil_append,
      scanT_none v rb rem2 (tmplStep_mid_none v [] rem2 (by simp) hnext)]
  | cons c m ih =>
    have hstep : tmplStep v (c :: (m ++ rb :: rem2)) = none :=
      tmplStep_mid_none v (c :: m) rem2 hm hnext
    have hca : (c :: m) ++ rb :: rem2 = c :: (m ++ rb :: rem2) := rfl
    rw [hca, scanT_none v c _ hstep, ih (fun d hd => hm d (by simp [hd]))]
    rfl

theorem replOf_ne_nil_head_ne_rb (v : String → Option String)
    (run : List Char) (hv : bracesFreeVals v) :
    ∃ g t, replOf v run = g :: t ∧ g ≠ rb := by
  unfold replOf
  match hjk : jsLookup v (String.mk (jsTrim run)) with
  | some val =>
    have hval : v (String.mk (jsTrim run)) = some val ∧ val ≠ "" := by
      unfold jsLookup at hjk
      match hvk : v (String.mk (jsTrim run)) with
      | some s =>
        rw [hvk] at hjk
        by_cases hs : s = ""
        · simp [hs] at hjk
        · simp only [hs, if_neg, if_false] at hjk
          cases hjk
          exact ⟨rfl, hs⟩
      | none => rw [hvk] at hjk; cases hjk
    have hrb : rb ∉ val.data := (hv _ _ hval.1).2
    have hdata : val.data ≠ [] := by
      intro hcon
      apply hval.2
      cases val
      simp only at hcon
      rw [hcon]
    match hvd : val.data with
    | [] => exact absurd hvd hdata
    | g :: t =>
      refine ⟨g, t, hvd, ?_⟩
      intro hg
      rw [hvd] at hrb
      exact hrb (by simp [hg])
  | none =>
    exact ⟨lb, lb :: (run ++ [rb, rb]), rfl, fun hcon => rb_ne_lb hcon.symm⟩

theorem scanT_head_ne_rb (v : String → Option String) (f : Char)
    (r : List Char) (hv : bracesFreeVals v) (hf : f ≠ rb) :
    ∃ g t, scanT v (f :: r) = g :: t ∧ g ≠ rb := by
  match hstep : tmplStep v (f :: r) with
  | none =>
    exact ⟨f, scanT v r, scanT_none v f r hstep, hf⟩
  | some (repl, rem) =>
    obtain ⟨run, _, _, hrepl, _⟩ := tmplStep_inv v _ _ _ hstep
    obtain ⟨g, t, hgt, hg⟩ := replOf_ne_nil_head_ne_rb v run hv
    refine ⟨g, t ++ scanT v rem, ?_, hg⟩
    rw [scanT_match v _ _ _ hstep, hrepl, hgt]
    rfl

theorem tmplStep_of_takeWhile_nil (v : String → Option String)
    (x : List Char) (h : x.takeWhile notRb = []) :
    tmplStep v (lb :: lb :: x) = none := by
  simp only [tmplStep, h]
  rcases x.dropWhile notRb with _ | ⟨d1, _ | ⟨d2, rem⟩⟩ <;> simp

theorem tmplStep_of_noDoubleRb (v : String → Option String) (x : List Char)
    (h : noDoubleRb x) : tmplStep v (lb :: lb :: x) = none := by
  unfold noDoubleRb at h
  simp only [tmplStep]
  rcases htw : x.takeWhile notRb with _ | ⟨r0, rs⟩ <;>
    rcases hdw : x.dropWhile notRb with _ | ⟨d1, _ | ⟨d2, rem⟩⟩ <;> simp
  rw [hdw] at h
  intro hd1 hd2
  exact absurd (by rw [hd1, hd2]; rfl) h

theorem noDoubleRb_of_fail (v : String → Option String) (rest2 : List Char)
    (hfail : tmplStep v (lb :: lb :: rest2) = none)
    (htw : rest2.takeWhile notRb ≠ []) : noDoubleRb rest2 := by
  unfold noDoubleRb
  simp only [tmplStep] at hfail
  rcases htw2 : rest2.takeWhile notRb with _ | ⟨r0, rs⟩
  · exact absurd htw2 htw
  · rcases hdw : rest2.dropWhile notRb with _ | ⟨d1, _ | ⟨d2, rem⟩⟩
    · simp [hdw]
    · simp [hdw]
    · rw [htw2, hdw] at hfail
      simp only [] at hfail
      by_cases hd : d1 = rb ∧ d2 = rb
      · rw [if_pos hd] at hfail
        cases hfail
      · intro hcon
        apply hd
        simp only [List.take, List.cons.injEq] at hcon
        exact ⟨hcon.1, hcon.2.1⟩

theorem jsLookup_some (v : String → Option String) (k : String)
    (val : String) (h : jsLookup v k = some val) :
    v k = some val ∧ val ≠ "" := by
  unfold jsLookup at h
  cases hvk : v k with
  | none => rw [hvk] at h; cases h
  | some s =>
    rw [hvk] at h
    have h2 : (if s = "" then none else some s) = some val := h
    by_cases hs : s = ""
    · rw [if_pos hs] at h2; cases h2
    · rw [if_neg hs] at h2
      have : s = val := by injection h2
      subst this
      exact ⟨rfl, hs⟩

theorem replOf_eq_val (v : String → Option String) (run : List Char)
    (val : String) (h : jsLookup v (String.mk (jsTrim run)) = some val) :
    replOf v run = val.data := by
  simp [replOf, h]

theorem replOf_eq_verbatim (v : String → Option String) (run : List Char)
    (h : jsLookup v (String.mk (jsTrim run)) = none) :
    replOf v run = lb :: lb :: (run ++ [rb, rb]) := by
  simp [replOf, h]

theorem all_of_dropWhile_nil (p : Char → Bool) (l : List Char)
    (h : l.dropWhile p = []) : ∀ c ∈ l, p c = true := by
  induction l with
  | nil => intro c hc; simp at hc
  | cons d l ih =>
    simp only [List.dropWhile] at h
    by_cases hd : p d = true
    · rw [hd] at h
      intro c hc
      rcases List.mem_cons.mp hc with hcd | hcl
      · rw [hcd]; exact hd
      · exact ih h c hcl
    · simp only [Bool.not_eq_true] at hd
      rw [hd] at h
      cases h
  

theorem head_dropWhile_false (p : Char → Bool) (l : List Char) (c : Char)
    (t : List Char) (h : l.dropWhile p = c :: t) : p c = false := by
  induction l with
  | nil => cases h
  | cons d l ih =>
    simp only [List.dropWhile] at h
    by_cases hd : p d = true
    · rw [hd] at h
      exact ih h
    · simp only [Bool.not_eq_true] at hd
      rw [hd] at h
      have : d = c := by injection h
      rw [← this]
      exact hd

theorem notRb_lb : notRb lb = true := by decide

theorem notRb_rb : notRb rb = false := by decide

theorem scanT_noDoubleRb (v : String → Option String)
    (hv : bracesFreeVals v) (l : List Char) (h : noDoubleRb l) :
    noDoubleRb (scanT v l) := by
  rcases hdw : l.dropWhile notRb with _ | ⟨d1, rem2⟩
  · have hall := all_of_dropWhile_nil notRb l hdw
    have hnorb : rb ∉ l := by
      intro hmem
      have := hall rb hmem
      rw [notRb_rb] at this
      cases this
    rw [scanT_no_rb v l hnorb]
    exact h
  · have hd1 : d1 = rb := by
      have := head_dropWhile_false notRb l d1 rem2 hdw
      simp only [notRb, ne_eq, decide_eq_true_eq, decide_eq_false_iff_not,
        Decidable.not_not] at this
      exact this
    subst hd1
    have hm := List.takeWhile_append_dropWhile (p := notRb) (l := l)
    rw [hdw] at hm
    have hall : ∀ c ∈ l.takeWhile notRb, notRb c = true :=
      fun c hc => mem_takeWhile_sat notRb l c hc
    have hnext : rem2 = [] ∨ ∃ f r3, rem2 = f :: r3 ∧ f ≠ rb := by
      rcases rem2 with _ | ⟨f, r3⟩
      · exact Or.inl rfl
      · refine Or.inr ⟨f, r3, rfl, ?_⟩
        intro hf
        apply h
        rw [hdw, hf]
        rfl
    have hsc : scanT v l = l.takeWhile notRb ++ rb :: scanT v rem2 := by
      conv_lhs => rw [← hm]
      exact scanT_mid v _ rem2 hall hnext
    rw [hsc]
    unfold noDoubleRb
    rw [dropWhile_append_all notRb _ _ hall]
    simp only [List.dropWhile, notRb_rb]
    rcases hnext with hnil | ⟨f, r3, hfr, hf⟩
    · subst hnil
      rw [scanT_nil]
      simp
    · subst hfr
      obtain ⟨g, t, hgt, hg⟩ := scanT_head_ne_rb v f r3 hv hf
      rw [hgt]
      simp only [List.take, ne_eq, List.cons.injEq, not_and]
      intro _ hcon
      exact absurd hcon hg

theorem takeWhile_cons_notRb (c : Char) (l : List Char) (h : notRb c = true) :
    (c :: l).takeWhile notRb = c :: l.takeWhile notRb := by
  simp [List.takeWhile, h]

theorem dropWhile_cons_notRb (c : Char) (l : List Char) (h : notRb c = true) :
    (c :: l).dropWhile notRb = l.dropWhile notRb := by
  simp [List.dropWhile, h]

theorem notRb_of_ne (c : Char) (h : c ≠ rb) : notRb c = true := by
  simp [notRb, h]

theorem tmplStep_stuck (v : String → Option String)
    (hv : bracesFreeVals v) (rest : List Char)
    (hfail : tmplStep v (lb :: rest) = none) :
    tmplStep v (lb :: scanT v rest) = none := by
  rcases rest with _ | ⟨d, r⟩
  · rw [scanT_nil]
    exact tmplStep_one v lb
  · by_cases hd : d = lb
    · subst hd
      have step1 : tmplStep v (lb :: r) = none := by
        rcases r with _ | ⟨e, r2⟩
        · exact tmplStep_one v lb
        · by_cases he : e = lb
          · subst he
            have htwne : (lb :: r2).takeWhile notRb ≠ [] := by
              rw [takeWhile_cons_notRb lb r2 notRb_lb]
              simp
            have hD : noDoubleRb (lb :: r2) := noDoubleRb_of_fail v _ hfail htwne
            have hD3 : noDoubleRb r2 := by
              unfold noDoubleRb at hD ⊢
              rw [dropWhile_cons_notRb lb r2 notRb_lb] at hD
              exact hD
            exact tmplStep_of_noDoubleRb v r2 hD3
          · exact tmplStep_snd_ne v lb e r2 he
      rw [scanT_none v lb r step1]
      rcases r with _ | ⟨e, r2⟩
      · rw [scanT_nil]
        exact tmplStep_of_takeWhile_nil v [] (by simp)
      · by_cases he2 : e = rb
        · subst he2
          rw [scanT_none v rb r2 (tmplStep_fst_ne v rb r2 rb_ne_lb)]
          refine tmplStep_of_takeWhile_nil v _ ?_
          simp [List.takeWhile, notRb_rb]
        · have htwne : (e :: r2).takeWhile notRb ≠ [] := by
            rw [takeWhile_cons_notRb e r2 (notRb_of_ne e he2)]
            simp
          have hD : noDoubleRb (e :: r2) := noDoubleRb_of_fail v _ hfail htwne
          have hD2 : noDoubleRb (scanT v (e :: r2)) := scanT_noDoubleRb v hv _ hD
          exact tmplStep_of_noDoubleRb v _ hD2
    · rw [scanT_none v d r (tmplStep_fst_ne v d r hd)]
      exact tmplStep_snd_ne v lb d _ hd

theorem scanT_idem_aux (v : String → Option String) (hv : bracesFreeVals v) :
    ∀ n l, l.length ≤ n → scanT v (scanT v l) = scanT v l := by
  intro n
  induction n with
  | zero =>
    intro l hlen
    have : l = [] := List.length_eq_zero.mp (Nat.le_zero.mp hlen)
    subst this
    rw [scanT_nil, scanT_nil]
  | succ n ih =>
    intro l hlen
    cases hstep : tmplStep v l with
    | some pr =>
      obtain ⟨repl, rem⟩ := pr
      obtain ⟨run, hrun_ne, hrun_all, hrepl, hl⟩ :=
        tmplStep_inv v l repl rem hstep
      have hremlt : rem.length < l.length := tmplStep_rem_lt v l (repl, rem) hstep
      have ihrem : scanT v (scanT v rem) = scanT v rem := by
        refine ih rem ?_
        omega
      rw [scanT_match v l repl rem hstep]
      subst hrepl
      cases hjk : jsLookup v (String.mk (jsTrim run)) with
      | some val =>
        rw [replOf_eq_val v run val hjk]
        have hlbf : ∀ c ∈ val.data, c ≠ lb := by
          intro c hc hceq
          obtain ⟨hvk, _⟩ := jsLookup_some v _ val hjk
          exact (hv _ _ hvk).1 (hceq ▸ hc)
        rw [scanT_append_ne_lb v val.data _ hlbf, ihrem]
      | none =>
        rw [replOf_eq_verbatim v run hjk]
        obtain ⟨r0, rs, hrr⟩ : ∃ r0 rs, run = r0 :: rs := by
          rcases run with _ | ⟨r0, rs⟩
          · exact absurd rfl hrun_ne
          · exact ⟨r0, rs, rfl⟩
        subst hrr
        have hassoc : (lb :: lb :: ((r0 :: rs) ++ [rb, rb])) ++ scanT v rem =
            lb :: lb :: ((r0 :: rs) ++ rb :: rb :: scanT v rem) := by
          simp
        rw [hassoc]
        have hfull := tmplStep_full v r0 rs (scanT v rem) hrun_all
        rw [scanT_match v _ _ _ hfull, replOf_eq_verbatim v (r0 :: rs) hjk,
          ihrem]
        simp
    | none =>
      rcases l with _ | ⟨c, rest⟩
      · rw [scanT_nil, scanT_nil]
      · rw [scanT_none v c rest hstep]
        have hstep2 : tmplStep v (c :: scanT v rest) = none := by
          by_cases hc : c = lb
          · subst hc
            exact tmplStep_stuck v hv rest hstep
          · exact tmplStep_fst_ne v c _ hc
        rw [scanT_none v c _ hstep2]
        have hrl : rest.length ≤ n := by
          simp only [List.length_cons] at hlen
          omega
        rw [ih rest hrl]

/-- C9 counterexample: processTemplate is not idempotent for every content
and variables map.  With variables a mapped to a placeholder for b and b
mapped to Z, rendering once yields the placeholder for b and rendering the
result again substitutes Z, so re-rendering is not a no-op. -/
theorem c9_counterexample :
    processTemplate (processTemplate c9cContent c9cVars) c9cVars ≠
      processTemplate c9cContent c9cVars := by
  decide

/-- C9 (amended): template rendering is idempotent for every content string
whenever no variable value contains a brace character: re-rendering
already-substituted content with the same variables is then a no-op.  (The
unrestricted statement fails when a value itself contains placeholder
braces, as the counterexample shows.) -/
theorem c9_template_rendering_idempotent (content : String)
    (vars : String → Option String) (hv : bracesFreeVals vars) :
    processTemplate (processTemplate content vars) vars =
      processTemplate content vars := by
  unfold processTemplate
  have hdata : (String.mk (scanT vars content.data)).data =
      scanT vars content.data := rfl
  rw [hdata, scanT_idem_aux vars hv content.data.length content.data le_rfl]

theorem c9_witness :
    processTemplate (processTemplate c9wContent c9wVars) c9wVars =
      processTemplate c9wContent c9wVars := by
  refine c9_template_rendering_idempotent c9wContent c9wVars ?_
  intro k s h
  unfold c9wVars at h
  by_cases hk : k = "x"
  · rw [if_pos hk] at h
    have : s = "world" := by
      injection h with h2
      exact h2.symm
    subst this
    decide
  · rw [if_neg hk] at h
    cases h

/-- C10: a placeholder whose trimmed name maps to the empty string is left
verbatim by processTemplate, because the replacement expression treats the
empty string as falsy and falls back to the matched text; scanning then
continues after the placeholder. -/
theorem c10_empty_value_placeholder_verbatim (run tail : List Char)
    (vars : String → Option String) (hne : run ≠ [])
    (hnorb : ∀ c ∈ run, c ≠ rb)
    (hv : vars (String.mk (jsTrim run)) = some "") :
    processTemplate (String.mk (lb :: lb :: (run ++ rb :: rb :: tail))) vars =
      String.mk (lb :: lb :: (run ++ rb :: rb :: scanT vars tail)) := by
  obtain ⟨r0, rs, hrr⟩ : ∃ r0 rs, run = r0 :: rs := by
    rcases run with _ | ⟨r0, rs⟩
    · exact absurd rfl hne
    · exact ⟨r0, rs, rfl⟩
  subst hrr
  have hall : ∀ c ∈ r0 :: rs, notRb c = true :=
    fun c hc => notRb_of_ne c (hnorb c hc)
  have hjk : jsLookup vars (String.mk (jsTrim (r0 :: rs))) = none := by
    simp [jsLookup, hv]
  unfold processTemplate
  have hdata : (String.mk (lb :: lb :: ((r0 :: rs) ++ rb :: rb :: tail))).data =
      lb :: lb :: ((r0 :: rs) ++ rb :: rb :: tail) := rfl
  rw [hdata, scanT_match vars _ _ _ (tmplStep_full vars r0 rs tail hall),
    replOf_eq_verbatim vars (r0 :: rs) hjk]
  have hassoc : (lb :: lb :: ((r0 :: rs) ++ [rb, rb])) ++ scanT vars tail =
      lb :: lb :: ((r0 :: rs) ++ rb :: rb :: scanT vars tail) := by
    simp
  rw [hassoc]

theorem c10_witness :
    processTemplate (String.mk (lb :: lb :: (['n'] ++ rb :: rb :: " r".data)))
        c10wVars =
      String.mk (lb :: lb :: (['n'] ++ rb :: rb :: scanT c10wVars " r".data)) := by
  refine c10_empty_value_placeholder_verbatim ['n'] (" r".data) c10wVars
    (by decide) (by decide) ?_
  rfl

theorem tryAnchor_rem_lt (l : List Char) (pr : List Char × List Char)
    (h : tryAnchor l = some pr) : pr.2.length < l.length := by
  match l with
  | [] => simp [tryAnchor] at h
  | [c] => simp [tryAnchor] at h
  | c0 :: c1 :: rest =>
    simp only [tryAnchor] at h
    by_cases hc : c0 = '<' ∧ c1.toLower = 'a'
    · rw [if_pos hc] at h
      have hdwlen : (rest.dropWhile jsWS).length ≤ rest.length :=
        dropWhile_length_le _ _
      rcases htw : rest.takeWhile jsWS with _ | ⟨w0, ws⟩ <;>
        rcases hdw : rest.dropWhile jsWS with
          _ | ⟨h1, _ | ⟨h2, _ | ⟨h3, _ | ⟨h4, _ | ⟨eqc, _ | ⟨qc, r3⟩⟩⟩⟩⟩⟩ <;>
        rw [htw, hdw] at h <;> simp only [] at h
      · cases h
      · cases h
      · cases h
      · cases h
      · cases h
      · cases h
      · cases h
      · cases h
      · cases h
      · cases h
      · cases h
      · cases h
      · cases h
      · by_cases hh : h1.toLower = 'h' ∧ h2.toLower = 'r' ∧ h3.toLower = 'e' ∧
            h4.toLower = 'f' ∧ eqc = '=' ∧ qc = '"'
        · rw [if_pos hh] at h
          have hr3len : (r3.dropWhile notQuote).length ≤ r3.length :=
            dropWhile_length_le _ _
          rcases hutw : r3.takeWhile notQuote with _ | ⟨u0, us⟩ <;>
            rcases hudw : r3.dropWhile notQuote with _ | ⟨q2, r4⟩ <;>
            rw [hutw, hudw] at h <;> simp only [] at h
          · cases h
          · cases h
          · cases h
          · have hpr : pr.2 = r4 := by cases h; rfl
            rw [hdw] at hdwlen
            rw [hudw] at hr3len
            simp only [List.length_cons] at hdwlen hr3len ⊢
            rw [hpr]
            omega
        · rw [if_neg hh] at h
          cases h
    · rw [if_neg hc] at h
      cases h

theorem linkScanF_fuel (host tid : List Char) :
    ∀ n m l, l.length ≤ n → l.length ≤ m →
      linkScanF host tid n l = linkScanF host tid m l := by
  intro n
  induction n with
  | zero =>
    intro m l hn _
    have : l = [] := List.length_eq_zero.mp (Nat.le_zero.mp hn)
    subst this
    cases m <;> rfl
  | succ n ih =>
    intro m l hn hm
    rcases l with _ | ⟨c, rest⟩
    · cases m <;> rfl
    · rcases m with _ | m
      · simp at hm
      · simp only [linkScanF]
        cases hstep : tryAnchor (c :: rest) with
        | some pr =>
          have hlt : pr.2.length < rest.length + 1 :=
            tryAnchor_rem_lt (c :: rest) pr hstep
          simp only [List.length_cons] at hn hm
          show anchorRepl host tid pr.1 ++ linkScanF host tid n pr.2 =
            anchorRepl host tid pr.1 ++ linkScanF host tid m pr.2
          rw [ih m pr.2 (by omega) (by omega)]
        | none =>
          simp only [List.length_cons] at hn hm
          show c :: linkScanF host tid n rest = c :: linkScanF host tid m rest
          rw [ih m rest (by omega) (by omega)]

theorem rewriteLinks_nil (host tid : List Char) :
    rewriteLinks host tid [] = [] := rfl

theorem rewriteLinks_match (host tid l : List Char) (u rem : List Char)
    (h : tryAnchor l = some (u, rem)) :
    rewriteLinks host tid l =
      anchorRepl host tid u ++ rewriteLinks host tid rem := by
  rcases l with _ | ⟨c, rest⟩
  · simp [tryAnchor] at h
  · show linkScanF host tid (rest.length + 1) (c :: rest) = _
    simp only [linkScanF, h]
    have hlt : rem.length < rest.length + 1 :=
      tryAnchor_rem_lt (c :: rest) (u, rem) h
    rw [linkScanF_fuel host tid rest.length rem.length rem (by omega) le_rfl]
    rfl

theorem rewriteLinks_none (host tid : List Char) (c : Char)
    (rest : List Char) (h : tryAnchor (c :: rest) = none) :
    rewriteLinks host tid (c :: rest) = c :: rewriteLinks host tid rest := by
  show linkScanF host tid (rest.length + 1) (c :: rest) = _
  simp only [linkScanF, h]
  rfl

theorem tryAnchor_full (aC : Char) (ws hr u rest : List Char)
    (haC : aC.toLower = 'a')
    (hws : ws ≠ []) (hwsall : ∀ c ∈ ws, jsWS c = true)
    (hhr : hr.map Char.toLower = "href".data)
    (hu : u ≠ []) (huq : ∀ c ∈ u, c ≠ '"') :
    tryAnchor (anchorText aC ws hr u ++ rest) = some (u, rest) := by
  obtain ⟨w0, wt, hwr⟩ : ∃ w0 wt, ws = w0 :: wt := by
    rcases ws with _ | ⟨w0, wt⟩
    · exact absurd rfl hws
    · exact ⟨w0, wt, rfl⟩
  have hlen : hr.length = 4 := by
    have := congrArg List.length hhr
    simpa using this
  obtain ⟨h1, h2, h3, h4, hhr4⟩ : ∃ a b c d, hr = [a, b, c, d] := by
    rcases hr with _ | ⟨a, _ | ⟨b, _ | ⟨c, _ | ⟨d, _ | ⟨e, t⟩⟩⟩⟩⟩
    · simp at hlen
    · simp at hlen
    · simp at hlen
    · simp at hlen
    · exact ⟨a, b, c, d, rfl⟩
    · simp at hlen
  obtain ⟨u0, ut, hur⟩ : ∃ u0 ut, u = u0 :: ut := by
    rcases u with _ | ⟨u0, ut⟩
    · exact absurd rfl hu
    · exact ⟨u0, ut, rfl⟩
  subst hwr hhr4 hur
  simp only [List.map, List.cons.injEq] at hhr
  have hshape : anchorText aC (w0 :: wt) [h1, h2, h3, h4] (u0 :: ut) ++ rest =
      '<' :: aC :: ((w0 :: wt) ++
        (h1 :: h2 :: h3 :: h4 :: '=' :: '"' :: ((u0 :: ut) ++ '"' :: rest))) := by
    simp [anchorText]
  rw [hshape]
  have hwsh : jsWS h1 = false := by
    have hth : h1.toLower = 'h' := hhr.1
    simp only [jsWS]
    by_contra hcon
    simp only [Bool.not_eq_false, Bool.or_eq_true, decide_eq_true_eq] at hcon
    rcases hcon with ((((hc | hc) | hc) | hc) | hc) | hc <;>
      rw [hc] at hth <;> cases hth
  have htw : ((w0 :: wt) ++
      (h1 :: h2 :: h3 :: h4 :: '=' :: '"' :: ((u0 :: ut) ++ '"' :: rest))).takeWhile jsWS =
      w0 :: wt := by
    rw [takeWhile_append_all jsWS _ _ hwsall]
    simp [List.takeWhile, hwsh]
  have hdw : ((w0 :: wt) ++
      (h1 :: h2 :: h3 :: h4 :: '=' :: '"' :: ((u0 :: ut) ++ '"' :: rest))).dropWhile jsWS =
      h1 :: h2 :: h3 :: h4 :: '=' :: '"' :: ((u0 :: ut) ++ '"' :: rest) := by
    rw [dropWhile_append_all jsWS _ _ hwsall]
    simp [List.dropWhile, hwsh]
  have hquall : ∀ c ∈ u0 :: ut, notQuote c = true := by
    intro c hc
    simp only [notQuote, ne_eq, decide_eq_true_eq]
    exact huq c hc
  have hqfalse : notQuote '"' = false := by decide
  have hutw : ((u0 :: ut) ++ '"' :: rest).takeWhile notQuote =
      u0 :: ut := by
    rw [takeWhile_append_all _ _ _ hquall]
    simp [List.takeWhile, hqfalse]
  have hudw : ((u0 :: ut) ++ '"' :: rest).dropWhile notQuote =
      '"' :: rest := by
    rw [dropWhile_append_all _ _ _ hquall]
    simp [List.dropWhile, hqfalse]
  simp only [tryAnchor, htw, hdw, hutw, hudw]
  simp [haC, hhr.1, hhr.2.1, hhr.2.2.1, hhr.2.2.2]

theorem rewriteLinks_no_anchor (host tid : List Char) (l cont : List Char)
    (h : ∀ i, i < l.length → tryAnchor (l.drop i ++ cont) = none) :
    rewriteLinks host tid (l ++ cont) = l ++ rewriteLinks host tid cont := by
  induction l with
  | nil => rfl
  | cons c restl ih =>
    have h0 : tryAnchor (c :: (restl ++ cont)) = none := by
      have := h 0 (by simp)
      simpa using this
    have hca : (c :: restl) ++ cont = c :: (restl ++ cont) := rfl
    rw [hca, rewriteLinks_none host tid c _ h0]
    rw [ih (fun i hi => by
      have := h (i + 1) (by simp only [List.length_cons]; omega)
      simpa using this)]
    rfl

theorem noAnchorIn_elim (l cont : List Char) (h : noAnchorIn l cont = true) :
    ∀ i, i < l.length → tryAnchor (l.drop i ++ cont) = none := by
  intro i hi
  unfold noAnchorIn at h
  have := List.all_eq_true.mp h i (List.mem_range.mpr hi)
  simpa [Option.isNone_iff_eq_none] using this

theorem rewriteLinks_renderParts (host tid : List Char)
    (parts : List AnchorPart) (tail : List Char)
    (h : segsOk parts tail = true) :
    rewriteLinks host tid (renderParts parts tail) =
      renderRewritten host tid parts tail := by
  induction parts with
  | nil =>
    unfold segsOk at h
    unfold renderParts renderRewritten
    have hall := noAnchorIn_elim tail [] h
    have := rewriteLinks_no_anchor host tid tail [] (fun i hi => hall i hi)
    simpa [rewriteLinks_nil] using this
  | cons p rest ih =>
    unfold segsOk at h
    simp only [Bool.and_eq_true] at h
    obtain ⟨⟨hp, hseg⟩, hrest⟩ := h
    unfold partOk at hp
    simp only [Bool.and_eq_true, decide_eq_true_eq, Bool.not_eq_true',
      List.all_eq_true] at hp
    obtain ⟨⟨⟨⟨⟨haC, hwsne⟩, hwsall⟩, hhr⟩, hune⟩, huall⟩ := hp
    unfold renderParts renderRewritten
    have hseg2 := noAnchorIn_elim _ _ hseg
    rw [List.append_assoc]
    rw [rewriteLinks_no_anchor host tid p.seg _ hseg2]
    have hanchor : tryAnchor (anchorText p.aC p.ws p.hr p.u ++ renderParts rest tail) =
        some (p.u, renderParts rest tail) := by
      refine tryAnchor_full p.aC p.ws p.hr p.u (renderParts rest tail) haC
        ?_ hwsall hhr ?_ ?_
      · intro hcon
        rw [hcon] at hwsne
        simp at hwsne
      · intro hcon
        rw [hcon] at hune
        simp at hune
      · intro c hc
        have := huall c hc
        simpa [notQuote] using this
    rw [rewriteLinks_match host tid _ _ _ hanchor, ih hrest]
    simp

theorem isPrefixOf_iff_exists (pat l : List Char) :
    pat.isPrefixOf l = true ↔ ∃ t, l = pat ++ t := by
  induction pat generalizing l with
  | nil => simp [List.isPrefixOf]
  | cons p ps ih =>
    rcases l with _ | ⟨c, rest⟩
    · simp [List.isPrefixOf]
    · simp only [List.isPrefixOf, Bool.and_eq_true, beq_iff_eq, ih,
        List.cons_append, List.cons.injEq]
      constructor
      · rintro ⟨hpc, t, ht⟩
        exact ⟨t, hpc.symm, ht⟩
      · rintro ⟨t, hcp, ht⟩
        exact ⟨hcp.symm, t, ht⟩

theorem splitFirst_spec (pat l a b : List Char)
    (h : splitFirst pat l = some (a, b)) :
    l = a ++ pat ++ b ∧
      ∀ a2 b2, l = a2 ++ pat ++ b2 → a.length ≤ a2.length := by
  induction l generalizing a b with
  | nil =>
    unfold splitFirst at h
    by_cases hp : pat.isEmpty
    · rw [if_pos hp] at h
      have ha : a = [] ∧ b = [] := by
        cases h
        exact ⟨rfl, rfl⟩
      have hpat : pat = [] := by
        rcases pat with _ | _
        · rfl
        · simp [List.isEmpty] at hp
      refine ⟨by simp [ha.1, ha.2, hpat], ?_⟩
      intro a2 b2 _
      simp [ha.1]
    · rw [if_neg hp] at h
      cases h
  | cons c rest ih =>
    unfold splitFirst at h
    by_cases hpre : pat.isPrefixOf (c :: rest) = true
    · rw [if_pos hpre] at h
      obtain ⟨t, ht⟩ := (isPrefixOf_iff_exists pat (c :: rest)).mp hpre
      have ha : a = [] ∧ b = (c :: rest).drop pat.length := by
        cases h
        exact ⟨rfl, rfl⟩
      refine ⟨?_, ?_⟩
      · rw [ha.1, ha.2, ht]
        simp
      · intro a2 b2 _
        simp [ha.1]
    · simp only [hpre, if_false, Bool.false_eq_true] at h
      cases hrec : splitFirst pat rest with
      | none => rw [hrec] at h; cases h
      | some pr =>
        obtain ⟨a1, b1⟩ := pr
        rw [hrec] at h
        have ha : a = c :: a1 ∧ b = b1 := by
          cases h
          exact ⟨rfl, rfl⟩
        obtain ⟨hspec, hmin⟩ := ih a1 b1 hrec
        refine ⟨?_, ?_⟩
        · rw [ha.1, ha.2]
          simp only [List.cons_append, List.cons.injEq, true_and]
          exact hspec
        · intro a2 b2 hl
          rcases a2 with _ | ⟨c2, a3⟩
          · exfalso
            apply hpre
            rw [isPrefixOf_iff_exists]
            exact ⟨b2, by simpa using hl⟩
          · have hl2 : rest = a3 ++ pat ++ b2 := by
              simp only [List.cons_append, List.cons.injEq] at hl
              exact hl.2
            have := hmin a3 b2 hl2
            rw [ha.1]
            simp only [List.length_cons]
            omega

set_option maxRecDepth 40000 in
/-- C8 counterexample: the injection double-wraps a link that is already
rewritten.  Injecting once rewrites the link and adds the pixel; injecting
the result again leaves the pixel alone but wraps the already-rewritten
href a second time, so the injection is not idempotent on links, contrary
to the claim that an already-rewritten link is never double-wrapped. -/
theorem c8_counterexample :
    injectTracking c8host c8tid (injectTracking c8host c8tid c8cHtml) ≠
      injectTracking c8host c8tid c8cHtml := by
  decide

/-- C8 (amended): the tracking injection inside sendEmail inserts the
open-tracking pixel exactly once, immediately before the first closing
body marker, skipping the insertion when a pixel marker is already
present (pixel insertion is idempotent) and leaving the body unchanged
when no closing marker exists; it then rewrites every hyperlink href into
the redirect endpoint carrying the encoded original URL and the tracking
id, preserving link text and order.  Unlike the original claim, link
rewriting has no already-wrapped guard: a link that is already rewritten
is wrapped again, as the counterexample shows. -/
theorem c8_tracking_injection (host tid html pre post : List Char)
    (parts : List AnchorPart) (tail : List Char) :
    (jsIncludes html pixelMarker = true → injectPixel host tid html = html) ∧
    (jsIncludes html pixelMarker = false →
      splitFirst bodyCloseTag html = some (pre, post) →
      injectPixel host tid html =
        pre ++ pixelHtml host tid ++ bodyCloseTag ++ post ∧
      html = pre ++ bodyCloseTag ++ post ∧
      ∀ pre2 post2, html = pre2 ++ bodyCloseTag ++ post2 →
        pre.length ≤ pre2.length) ∧
    (jsIncludes html pixelMarker = false →
      splitFirst bodyCloseTag html = none → injectPixel host tid html = html) ∧
    (segsOk parts tail = true →
      rewriteLinks host tid (renderParts parts tail) =
        renderRewritten host tid parts tail) ∧
    injectTracking host tid html =
      rewriteLinks host tid (injectPixel host tid html) := by
  refine ⟨?_, ?_, ?_, ?_, rfl⟩
  · intro h
    simp [injectPixel, h]
  · intro h hsp
    obtain ⟨hspec, hmin⟩ := splitFirst_spec bodyCloseTag html pre post hsp
    refine ⟨?_, hspec, hmin⟩
    unfold injectPixel
    rw [if_neg (by simp [h]), replaceFirst, hsp]
    simp
  · intro h hsp
    unfold injectPixel
    rw [if_neg (by simp [h]), replaceFirst, hsp]
  · intro h
    exact rewriteLinks_renderParts host tid parts tail h

set_option maxRecDepth 40000 in
theorem c8_witness :
    (injectPixel c8host c8tid c8wHtmlPixel = c8wHtmlPixel) ∧
    (injectPixel c8host c8tid c8wHtml =
      c8wPre ++ pixelHtml c8host c8tid ++ bodyCloseTag ++ []) ∧
    (rewriteLinks c8host c8tid (renderParts c8wParts c8wTail) =
      renderRewritten c8host c8tid c8wParts c8wTail) := by
  refine ⟨?_, ?_, ?_⟩
  · exact (c8_tracking_injection c8host c8tid c8wHtmlPixel [] []
      c8wParts c8wTail).1 (by decide)
  · exact ((c8_tracking_injection c8host c8tid c8wHtml c8wPre []
      c8wParts c8wTail).2.1 (by decide) (by decide)).1
  · exact (c8_tracking_injection c8host c8tid c8wHtml c8wPre []
      c8wParts c8wTail).2.2.2.1 (by decide)

theorem mem_insertByKey {α : Type} (key : α → Int) (x a : α) (l : List α) :
    a ∈ insertByKey key x l ↔ a = x ∨ a ∈ l := by
  induction l with
  | nil => simp [insertByKey]
  | cons y ys ih =>
    simp only [insertByKey]
    split
    · simp [or_comm, or_assoc, or_left_comm]
    · simp only [List.mem_cons, ih]
      tauto

theorem pairwise_insertByKey {α : Type} (key : α → Int) (x : α) (l : List α)
    (h : l.Pairwise (fun a b => key a ≤ key b)) :
    (insertByKey key x l).Pairwise (fun a b => key a ≤ key b) := by
  induction l with
  | nil => simp [insertByKey]
  | cons y ys ih =>
    simp only [insertByKey]
    rcases List.pairwise_cons.mp h with ⟨hy, hys⟩
    split
    · next hlt =>
      refine List.pairwise_cons.mpr ⟨?_, h⟩
      intro b hb
      rcases List.mem_cons.mp hb with hb | hb
      · rw [hb]; omega
      · have := hy b hb
        omega
    · next hge =>
      refine List.pairwise_cons.mpr ⟨?_, ih hys⟩
      intro b hb
      rcases (mem_insertByKey key x b ys).mp hb with hb | hb
      · rw [hb]; omega
      · exact hy b hb

theorem mem_sortByKey {α : Type} (key : α → Int) (a : α) (l : List α) :
    a ∈ sortByKey key l ↔ a ∈ l := by
  have hgen : ∀ (l2 acc : List α),
      a ∈ l2.foldl (fun acc x => insertByKey key x acc) acc ↔
        a ∈ acc ∨ a ∈ l2 := by
    intro l2
    induction l2 with
    | nil => intro acc; simp
    | cons x xs ih =>
      intro acc
      simp only [List.foldl, ih, mem_insertByKey, List.mem_cons]
      tauto
  unfold sortByKey
  rw [hgen]
  simp

theorem pairwise_sortByKey {α : Type} (key : α → Int) (l : List α) :
    (sortByKey key l).Pairwise (fun a b => key a ≤ key b) := by
  have hgen : ∀ (l2 acc : List α), acc.Pairwise (fun a b => key a ≤ key b) →
      (l2.foldl (fun acc x => insertByKey key x acc) acc).Pairwise
        (fun a b => key a ≤ key b) := by
    intro l2
    induction l2 with
    | nil => intro acc h; simpa using h
    | cons x xs ih =>
      intro acc h
      exact ih _ (pairwise_insertByKey key x acc h)
  exact hgen l [] (by simp)

theorem head_min_sortByKey {α : Type} (key : α → Int) (l : List α) (m : α)
    (t : List α) (h : sortByKey key l = m :: t) :
    ∀ q ∈ l, key m ≤ key q := by
  intro q hq
  have hmem : q ∈ sortByKey key l := (mem_sortByKey key q l).mpr hq
  rw [h] at hmem
  rcases List.mem_cons.mp hmem with hqm | hqt
  · rw [hqm]
  · have hp := pairwise_sortByKey key l
    rw [h] at hp
    exact (List.pairwise_cons.mp hp).1 q hqt

theorem filter_head?_eq_find? {α : Type} (p : α → Bool) (l : List α) :
    (l.filter p).head? = l.find? p := by
  induction l with
  | nil => simp
  | cons x xs ih =>
    by_cases hx : p x = true
    · simp [List.filter, List.find?, hx]
    · simp only [Bool.not_eq_true] at hx
      simp [List.filter, List.find?, hx, ih]

theorem find?_min_of_pairwise {α : Type} (key : α → Int) (p : α → Bool)
    (l : List α) (x : α) (hp : l.Pairwise (fun a b => key a ≤ key b))
    (h : l.find? p = some x) :
    x ∈ l ∧ p x = true ∧ ∀ y ∈ l, p y = true → key x ≤ key y := by
  induction l with
  | nil => simp at h
  | cons z zs ih =>
    rcases List.pairwise_cons.mp hp with ⟨hz, hzs⟩
    by_cases hzp : p z = true
    · simp only [List.find?, hzp, Option.some.injEq] at h
      subst h
      refine ⟨by simp, hzp, ?_⟩
      intro y hy _
      rcases List.mem_cons.mp hy with hy | hy
      · rw [hy]
      · exact hz y hy
    · simp only [Bool.not_eq_true] at hzp
      simp only [List.find?, hzp] at h
      obtain ⟨hxmem, hxp, hmin⟩ := ih hzs h
      refine ⟨by simp [hxmem], hxp, ?_⟩
      intro y hy hyp
      rcases List.mem_cons.mp hy with hy | hy
      · rw [hy] at hyp
        rw [hyp] at hzp
        cases hzp
      · exact hmin y hy hyp

theorem complianceLoop_blocked (w : SendWorld) (toAddr : String)
    (hlf : w.blockedLookupFails = false) :
    ∀ ms : List (String × String),
      (ms.any (fun mc => markerMatches toAddr mc.1 &&
        (w.blockedRegions.find?
          (fun r => r.regionCode = mc.2 && r.isActive)).isSome)) = true →
      ∃ reason, complianceLoop w toAddr ms = Except.ok (some reason) := by
  intro ms
  induction ms with
  | nil => intro h; simp at h
  | cons mc rest ih =>
    intro h
    obtain ⟨m, code⟩ := mc
    simp only [List.any_cons, Bool.or_eq_true, Bool.and_eq_true] at h
    unfold complianceLoop
    by_cases hm : markerMatches toAddr m = true
    · rw [if_pos hm]
      unfold getBlockedRegionByCodeE
      rw [hlf]
      simp only [Bool.false_eq_true, if_false]
      cases hfind : w.blockedRegions.find?
          (fun r => r.regionCode = code && r.isActive) with
      | some b => exact ⟨b.reason, rfl⟩
      | none =>
        apply ih
        rcases h with ⟨_, hsome⟩ | hrest
        · rw [hfind] at hsome
          simp at hsome
        · exact hrest
    · rw [if_neg hm]
      apply ih
      rcases h with ⟨hm2, _⟩ | hrest
      · exact absurd hm2 hm
      · exact hrest

theorem complianceLoop_error (w : SendWorld) (toAddr : String)
    (hlf : w.blockedLookupFails = true) :
    ∀ ms : List (String × String),
      (ms.any (fun mc => markerMatches toAddr mc.1)) = true →
      complianceLoop w toAddr ms =
        Except.error "blocked region lookup failed" := by
  intro ms
  induction ms with
  | nil => intro h; simp at h
  | cons mc rest ih =>
    intro h
    obtain ⟨m, code⟩ := mc
    simp only [List.any_cons, Bool.or_eq_true] at h
    unfold complianceLoop
    by_cases hm : markerMatches toAddr m = true
    · rw [if_pos hm]
      unfold getBlockedRegionByCodeE
      rw [hlf]
      simp
    · rw [if_neg hm]
      apply ih
      rcases h with hm2 | hrest
      · exact absurd hm2 hm
      · exact hrest

/-- C1: a send whose recipient address resolves to an active blocked
region (per the marker heuristic and the blocked-region table, with the
lookup succeeding) is rejected by processEmailSend with success false, the
blocked-region message and a compliance reason; no email record is
created, nothing reaches the transport, and the whole run consists of the
compliance check alone, so the check precedes template rendering and
provider selection. -/
theorem c1_blocked_region_rejected_before_transport
    (w : SendWorld) (req : SendReq) (st : PipeSt)
    (hlf : w.blockedLookupFails = false)
    (hb : resolvesBlocked w req.toAddr = true) :
    (processEmailSend w req st).1.success = false ∧
    (processEmailSend w req st).1.message =
      "Recipient is in a blocked region" ∧
    (∃ reason, (processEmailSend w req st).1.error =
      some ("Compliance violation: " ++ reason)) ∧
    (processEmailSend w req st).2.emails = st.emails ∧
    (processEmailSend w req st).2.sentMessages = st.sentMessages ∧
    (processEmailSend w req st).2.trace = st.trace ++ [Ev.complianceCheck] := by
  obtain ⟨reason, hloop⟩ :=
    complianceLoop_blocked w req.toAddr hlf countryMarkers hb
  unfold processEmailSend processEmailSendE
  rw [hloop]
  simp [emit]

theorem map_id_of_eq {α : Type} (f : α → α) (l : List α)
    (h : ∀ e ∈ l, f e = e) : l.map f = l := by
  induction l with
  | nil => rfl
  | cons x xs ih =>
    simp only [List.map, h x (by simp)]
    rw [ih (fun e he => h e (by simp [he]))]

/-- C2: when the blocked-region storage lookup throws, the compliance
service check reports the send as blocked with the system-error reason
(fail closed), and a send whose address matches a compliance marker, so
that its lookup errored, comes back from processEmailSend as a failure
with no record created and nothing sent: the run stops at the compliance
check. -/
theorem c2_compliance_lookup_fails_closed
    (w : SendWorld) (regionCode : String) (req : SendReq) (st : PipeSt)
    (hlf : w.blockedLookupFails = true)
    (hmatch : countryMarkers.any
      (fun mc => markerMatches req.toAddr mc.1) = true) :
    checkRegionComplianceSvc w regionCode =
      { allowed := false, code := some regionCode,
        reason := some "System error during compliance check" } ∧
    (processEmailSend w req st).1.success = false ∧
    (processEmailSend w req st).1.message =
      "Failed to process email request" ∧
    (processEmailSend w req st).2.emails = st.emails ∧
    (processEmailSend w req st).2.sentMessages = st.sentMessages ∧
    (processEmailSend w req st).2.trace = st.trace ++ [Ev.complianceCheck] := by
  have hloop := complianceLoop_error w req.toAddr hlf countryMarkers hmatch
  refine ⟨?_, ?_⟩
  · unfold checkRegionComplianceSvc getBlockedRegionByCodeE
    rw [hlf]
    simp
  · unfold processEmailSend processEmailSendE
    rw [hloop]
    simp [emit]

/-- C3: for a send that passes compliance, content and provider selection
(and whose storage calls succeed), processEmailSend persists the email
record with status sent before any transport activity — the event trace
shows the record creation strictly before connection acquisition and the
transport attempt; on transport failure the record is updated to failed
and a structured failure with the cause is returned; on transport success
the record stays sent and a success result is returned; and an exception
from any internal step never escapes: the top-level catch turns it into a
structured failure result. -/
theorem c3_record_persisted_before_transport
    (w : SendWorld) (req : SendReq) (st : PipeSt) (html text : String)
    (p : SmtpProvider)
    (hc : complianceLoop w req.toAddr countryMarkers = Except.ok none)
    (hct : contentStep w req = Except.ok (Sum.inr (html, text)))
    (hne : ((html = "" && text = "") : Bool) = false)
    (hplf : w.providerLookupFails = false)
    (hp : getSmtpProvider w.providers req.toAddr (orNat req.volume 1) = some p)
    (hcf : w.createFails = false)
    (huf : w.updateFails = false)
    (hcv : w.connVerifyFails = false)
    (hid : ∀ e ∈ st.emails, e.id ≠ st.nextId) :
    (w.transportFails = true →
      (processEmailSend w req st).1 =
        { success := false, emailId := some st.nextId,
          trackingId := some w.freshTrackingId,
          message := "Failed to send email",
          error := some w.transportError } ∧
      (processEmailSend w req st).2.emails = st.emails ++
        [{ id := st.nextId, toAddr := req.toAddr, fromAddr := req.fromAddr,
           subject := req.subject, templateId := req.templateId,
           smtpProviderId := p.id, region := orStr req.region p.region,
           trackingId := w.freshTrackingId, status := "failed" }] ∧
      (processEmailSend w req st).2.trace = st.trace ++
        [Ev.complianceCheck] ++ renderEvents w req ++
        [Ev.providerSelect, Ev.emailCreate st.nextId, Ev.providerSelect,
         Ev.connAcquire p.id, Ev.transportSend,
         Ev.statusUpdate st.nextId "failed"]) ∧
    (w.transportFails = false →
      (processEmailSend w req st).1 =
        { success := true, emailId := some st.nextId,
          trackingId := some w.freshTrackingId,
          message := "Email sent successfully", error := none } ∧
      (processEmailSend w req st).2.emails = st.emails ++
        [{ id := st.nextId, toAddr := req.toAddr, fromAddr := req.fromAddr,
           subject := req.subject, templateId := req.templateId,
           smtpProviderId := p.id, region := orStr req.region p.region,
           trackingId := w.freshTrackingId, status := "sent" }] ∧
      (processEmailSend w req st).2.trace = st.trace ++
        [Ev.complianceCheck] ++ renderEvents w req ++
        [Ev.providerSelect, Ev.emailCreate st.nextId, Ev.providerSelect,
         Ev.connAcquire p.id, Ev.transportSend,
         Ev.statusUpdate st.nextId "sent"]) ∧
    (∀ (w2 : SendWorld) (req2 : SendReq) (st2 : PipeSt) (e : String)
        (r2 : PipeSt),
      processEmailSendE w2 req2 st2 = (Except.error e, r2) →
      processEmailSend w2 req2 st2 =
        ({ success := false, emailId := none, trackingId := none,
           message := "Failed to process email request",
           error := some e }, r2)) := by
  have hmap : ∀ status : String,
      (st.emails.map (fun e =>
        if e.id = st.nextId then { e with status := status } else e)) =
        st.emails := by
    intro status
    refine map_id_of_eq _ _ ?_
    intro e he
    rw [if_neg (hid e he)]
  refine ⟨?_, ?_, ?_⟩
  · intro htf
    unfold processEmailSend processEmailSendE
    rw [hc, hct]
    simp only [hne, Bool.false_eq_true, if_false, hplf, hcf, huf, ite_false,
      Bool.false_eq_true]
    rw [hp]
    simp only [sendEmailRouter, hplf, Bool.false_eq_true, if_false]
    rw [hp]
    simp only [getConnection, hcv, Bool.false_eq_true, if_false, htf,
      if_true, emit, setStatus]
    by_cases hpool : p.id ∈ st.pool
    all_goals
      simp [hpool, emit, setStatus, hmap, List.map_append, List.append_assoc]
  · intro htf
    unfold processEmailSend processEmailSendE
    rw [hc, hct]
    simp only [hne, Bool.false_eq_true, if_false, hplf, hcf, huf, ite_false,
      Bool.false_eq_true]
    rw [hp]
    simp only [sendEmailRouter, hplf, Bool.false_eq_true, if_false]
    rw [hp]
    simp only [getConnection, hcv, Bool.false_eq_true, if_false, htf,
      if_true, emit, setStatus]
    by_cases hpool : p.id ∈ st.pool
    all_goals
      simp [hpool, emit, setStatus, hmap, List.map_append, List.append_assoc]
  · intro w2 req2 st2 e r2 h
    unfold processEmailSend
    rw [h]

theorem sortByKey_ne_nil {α : Type} (key : α → Int) (x : α) (l : List α)
    (h : x ∈ l) : sortByKey key l ≠ [] := by
  intro hcon
  have := (mem_sortByKey key x l).mpr h
  rw [hcon] at this
  simp at this

/-- C4: provider selection.  With ra the active providers of the derived
region and ga all active providers of the snapshot: when ra is empty the
selector returns the globally active provider with the least priority
number, or none when ga is empty too (and the pipeline then fails with
the provider-unavailable result); when the volume exceeds 1000 it returns
the first region provider, in ascending priority order, whose hourly
capacity covers the volume, or, when none qualifies, a region provider of
greatest capacity; otherwise it returns a region provider of least
priority number. -/
theorem c4_provider_selection (ps : List SmtpProvider) (email : String)
    (volume : Nat) (ra ga : List SmtpProvider)
    (hvol : 1 ≤ volume)
    (hra : ra = ps.filter
      (fun q => q.region = deriveRegion email && q.isActive))
    (hga : ga = ps.filter (fun q => q.isActive)) :
    (ra = [] → ga = [] → getSmtpProvider ps email volume = none) ∧
    (ra = [] → ga ≠ [] →
      ∃ p, getSmtpProvider ps email volume = some p ∧ p ∈ ga ∧
        ∀ q ∈ ga, p.priority ≤ q.priority) ∧
    (ra ≠ [] → 1000 < volume →
      (∃ q ∈ ra, volume ≤ q.maxSendsPerHour) →
      ∃ p, getSmtpProvider ps email volume = some p ∧ p ∈ ra ∧
        volume ≤ p.maxSendsPerHour ∧
        ∀ q ∈ ra, volume ≤ q.maxSendsPerHour → p.priority ≤ q.priority) ∧
    (ra ≠ [] → 1000 < volume →
      (∀ q ∈ ra, q.maxSendsPerHour < volume) →
      ∃ p, getSmtpProvider ps email volume = some p ∧ p ∈ ra ∧
        ∀ q ∈ ra, q.maxSendsPerHour ≤ p.maxSendsPerHour) ∧
    (ra ≠ [] → volume ≤ 1000 →
      ∃ p, getSmtpProvider ps email volume = some p ∧ p ∈ ra ∧
        ∀ q ∈ ra, p.priority ≤ q.priority) ∧
    (∀ (w : SendWorld) (req : SendReq) (st : PipeSt) (html text : String),
      complianceLoop w req.toAddr countryMarkers = Except.ok none →
      contentStep w req = Except.ok (Sum.inr (html, text)) →
      ((html = "" && text = "") : Bool) = false →
      w.providerLookupFails = false →
      getSmtpProvider w.providers req.toAddr (orNat req.volume 1) = none →
      (processEmailSend w req st).1 =
        { success := false, emailId := none, trackingId := none,
          message := "No suitable SMTP provider available",
          error :=
            some "Failed to find an active SMTP provider for this request" } ∧
      (processEmailSend w req st).2.emails = st.emails) := by
  subst hra hga
  have h0 : sortByKey (fun p : SmtpProvider => p.priority)
      ([] : List SmtpProvider) = [] := rfl
  refine ⟨?_, ?_, ?_, ?_, ?_, ?_⟩
  · intro hranil hganil
    simp only [getSmtpProvider, getSmtpProvidersByRegion, hranil, h0, hganil]
  · intro hranil hgane
    rcases hga2 : ps.filter (fun q => q.isActive) with _ | ⟨g0, gs⟩
    · exact absurd hga2 hgane
    · rcases hsort : sortByKey (fun p : SmtpProvider => p.priority)
          (g0 :: gs) with _ | ⟨m, t⟩
      · exact absurd hsort (sortByKey_ne_nil _ g0 _ (by simp))
      · refine ⟨m, ?_, ?_, ?_⟩
        · simp only [getSmtpProvider, getSmtpProvidersByRegion, hranil, h0,
            hga2, hsort]
          rfl
        · rw [hga2]
          have hm : m ∈ sortByKey (fun p : SmtpProvider => p.priority)
              (g0 :: gs) := by
            rw [hsort]; simp
          exact (mem_sortByKey _ m _).mp hm
        · intro q hq
          rw [hga2] at hq
          exact head_min_sortByKey _ (g0 :: gs) m t hsort q hq
  · intro hrane hvolgt hcap
    rcases hsort : sortByKey (fun p : SmtpProvider => p.priority)
        (ps.filter (fun q => q.region = deriveRegion email && q.isActive)) with
        _ | ⟨p0, prest⟩
    · exfalso
      rcases List.exists_mem_of_ne_nil _ hrane with ⟨x, hx⟩
      exact sortByKey_ne_nil _ x _ hx hsort
    · obtain ⟨q0, hq0mem, hq0cap⟩ := hcap
      have hq0sort : q0 ∈ p0 :: prest := by
        rw [← hsort]
        exact (mem_sortByKey _ q0 _).mpr hq0mem
      have hfilne : (p0 :: prest).filter
          (fun p => volume ≤ p.maxSendsPerHour) ≠ [] := by
        intro hcon
        have hq0f : q0 ∈ (p0 :: prest).filter
            (fun p => volume ≤ p.maxSendsPerHour) :=
          List.mem_filter.mpr ⟨hq0sort, by simpa using hq0cap⟩
        rw [hcon] at hq0f
        simp at hq0f
      rcases hfil : (p0 :: prest).filter
          (fun p => volume ≤ p.maxSendsPerHour) with _ | ⟨hp, hrest⟩
      · exact absurd hfil hfilne
      · have hfind : (p0 :: prest).find?
            (fun p => volume ≤ p.maxSendsPerHour) = some hp := by
          rw [← filter_head?_eq_find?, hfil]
          rfl
        have hpw : (p0 :: prest).Pairwise
            (fun a b => a.priority ≤ b.priority) := by
          have hps := pairwise_sortByKey (fun p : SmtpProvider => p.priority)
            (ps.filter (fun q => q.region = deriveRegion email && q.isActive))
          rw [hsort] at hps
          exact hps
        obtain ⟨hmem, hpred, hmin⟩ :=
          find?_min_of_pairwise (fun p => p.priority) _ _ hp hpw hfind
        refine ⟨hp, ?_, ?_, by simpa using hpred, ?_⟩
        · simp only [getSmtpProvider, getSmtpProvidersByRegion, hsort,
            if_pos hvolgt, hfil]
        · rw [← hsort] at hmem
          exact (mem_sortByKey _ hp _).mp hmem
        · intro q hq hqcap
          have hqsort : q ∈ p0 :: prest := by
            rw [← hsort]
            exact (mem_sortByKey _ q _).mpr hq
          exact hmin q hqsort (by simpa using hqcap)
  · intro hrane hvolgt hallcap
    rcases hsort : sortByKey (fun p : SmtpProvider => p.priority)
        (ps.filter (fun q => q.region = deriveRegion email && q.isActive)) with
        _ | ⟨p0, prest⟩
    · exfalso
      rcases List.exists_mem_of_ne_nil _ hrane with ⟨x, hx⟩
      exact sortByKey_ne_nil _ x _ hx hsort
    · have hfil : (p0 :: prest).filter
          (fun p => volume ≤ p.maxSendsPerHour) = [] := by
        rw [List.filter_eq_nil_iff]
        intro q hq
        have hqra : q ∈ ps.filter
            (fun q => q.region = deriveRegion email && q.isActive) := by
          rw [← hsort] at hq
          exact (mem_sortByKey _ q _).mp hq
        have hqcap := hallcap q hqra
        simp only [decide_eq_true_eq]
        omega
      rcases hsort2 : sortByKey (fun p : SmtpProvider =>
          -(p.maxSendsPerHour : Int)) (p0 :: prest) with _ | ⟨m, t⟩
      · exact absurd hsort2 (sortByKey_ne_nil _ p0 _ (by simp))
      · refine ⟨m, ?_, ?_, ?_⟩
        · simp only [getSmtpProvider, getSmtpProvidersByRegion, hsort,
            if_pos hvolgt, hfil, hsort2]
          rfl
        · have hmem : m ∈ p0 :: prest := by
            have hm2 : m ∈ sortByKey (fun p : SmtpProvider =>
                -(p.maxSendsPerHour : Int)) (p0 :: prest) := by
              rw [hsort2]; simp
            exact (mem_sortByKey _ m _).mp hm2
          rw [← hsort] at hmem
          exact (mem_sortByKey _ m _).mp hmem
        · intro q hq
          have hqsort : q ∈ p0 :: prest := by
            rw [← hsort]
            exact (mem_sortByKey _ q _).mpr hq
          have hk := head_min_sortByKey _ (p0 :: prest) m t hsort2 q hqsort
          omega
  · intro hrane hvolle
    rcases hsort : sortByKey (fun p : SmtpProvider => p.priority)
        (ps.filter (fun q => q.region = deriveRegion email && q.isActive)) with
        _ | ⟨p0, prest⟩
    · exfalso
      rcases List.exists_mem_of_ne_nil _ hrane with ⟨x, hx⟩
      exact sortByKey_ne_nil _ x _ hx hsort
    · refine ⟨p0, ?_, ?_, ?_⟩
      · simp only [getSmtpProvider, getSmtpProvidersByRegion, hsort,
          if_neg (by omega : ¬ 1000 < volume)]
      · have hm : p0 ∈ sortByKey (fun p : SmtpProvider => p.priority)
            (ps.filter (fun q => q.region = deriveRegion email && q.isActive)) := by
          rw [hsort]; simp
        exact (mem_sortByKey _ p0 _).mp hm
      · intro q hq
        exact head_min_sortByKey _ _ p0 prest hsort q hq
  · intro w req st html text hc hct hne hplf hnone
    unfold processEmailSend processEmailSendE
    rw [hc, hct]
    simp only [hne, Bool.false_eq_true, if_false, hplf]
    rw [hnone]
    simp [emit]

theorem rlHits_from_entry (windowMs : Nat) :
    ∀ (ts : List Nat) (c R : Nat), (∀ t ∈ ts, ¬ R < t) →
      rlHits windowMs (some { count := c, resetTime := R }) ts =
        (List.range' (c + 1) ts.length).map
          (fun k => { count := k, resetTime := R }) := by
  intro ts
  induction ts with
  | nil => intro c R _; rfl
  | cons t ts ih =>
    intro c R h
    have hnt : ¬ R < t := h t (by simp)
    simp only [rlHits, rlIncrement, if_neg hnt]
    rw [ih (c + 1) R (fun t2 ht2 => h t2 (by simp [ht2]))]
    simp only [List.length_cons]
    rw [List.range'_succ]
    rfl

theorem rlDecision_ok_iff (maxReq c : Nat) :
    rlDecision maxReq c = RLOutcome.ok ↔ c ≤ maxReq := by
  unfold rlDecision
  by_cases hcmp : maxReq < c
  · rw [if_pos hcmp]
    constructor
    · intro hok
      exact absurd hok (by intro hcon; cases hcon)
    · intro hle
      exact absurd hle (by omega)
  · rw [if_neg hcmp]
    constructor
    · intro _
      omega
    · intro _
      rfl

theorem rlDecision_tooMany (maxReq c : Nat) (h : maxReq < c) :
    rlDecision maxReq c = RLOutcome.tooMany 429 := by
  unfold rlDecision
  rw [if_pos h]

/-- C5: for a rate-limit key starting a fresh window (absent or expired
entry), the Nth hit within the window returns count N with the window
reset time unchanged; the limiter accepts the Nth request exactly when N
is at most the maximum and answers 429 beyond it, while the counter keeps
incrementing past the limit (the full count sequence 1..N is returned). -/
theorem c5_rate_limit_hits (windowMs maxReq t1 : Nat) (e0 : Option RLEntry)
    (ts : List Nat)
    (hfresh : e0 = none ∨ ∃ r, e0 = some r ∧ r.resetTime < t1)
    (hwin : ∀ t ∈ ts, t ≤ t1 + windowMs) :
    ((rlHits windowMs e0 (t1 :: ts)).map (fun r => r.count) =
      List.range' 1 (ts.length + 1)) ∧
    (∀ r ∈ rlHits windowMs e0 (t1 :: ts), r.resetTime = t1 + windowMs) ∧
    (∀ i (hi : i < (rlHits windowMs e0 (t1 :: ts)).length),
      (rlDecision maxReq ((rlHits windowMs e0 (t1 :: ts))[i].count) =
          RLOutcome.ok ↔ i + 1 ≤ maxReq) ∧
      (maxReq < i + 1 →
        rlDecision maxReq ((rlHits windowMs e0 (t1 :: ts))[i].count) =
          RLOutcome.tooMany 429)) := by
  have hfirst : rlIncrement t1 windowMs e0 =
      { count := 1, resetTime := t1 + windowMs } := by
    rcases hfresh with h | ⟨r, hr, hlt⟩
    · rw [h]; rfl
    · rw [hr]
      simp [rlIncrement, hlt]
  have hshape : rlHits windowMs e0 (t1 :: ts) =
      { count := 1, resetTime := t1 + windowMs } ::
        (List.range' 2 ts.length).map
          (fun k => { count := k, resetTime := t1 + windowMs }) := by
    simp only [rlHits, hfirst]
    rw [rlHits_from_entry windowMs ts 1 (t1 + windowMs)
      (fun t ht => by have := hwin t ht; omega)]
  rw [hshape]
  refine ⟨?_, ?_, ?_⟩
  · simp only [List.map_cons, List.map_map]
    rw [List.range'_succ]
    simp only [List.cons.injEq, true_and]
    show List.map id (List.range' 2 ts.length) = List.range' 2 ts.length
    exact List.map_id _
  · intro r hr
    rcases List.mem_cons.mp hr with hr | hr
    · rw [hr]
    · obtain ⟨k, _, hk⟩ := List.mem_map.mp hr
      rw [← hk]
  · intro i hi
    have hlen : i < 1 + ts.length := by
      simp only [List.length_cons, List.length_map, List.length_range'] at hi
      omega
    rcases i with _ | j
    · refine ⟨?_, ?_⟩
      · simp only [List.getElem_cons_zero]
        have hiff := rlDecision_ok_iff maxReq 1
        constructor
        · intro hok
          have := hiff.mp hok
          omega
        · intro hle
          exact hiff.mpr (by omega)
      · intro hgt
        simp only [List.getElem_cons_zero]
        exact rlDecision_tooMany maxReq 1 (by omega)
    · have hj : j < ts.length := by omega
      refine ⟨?_, ?_⟩
      · simp only [List.getElem_cons_succ, List.getElem_map,
          List.getElem_range', one_mul]
        have hiff := rlDecision_ok_iff maxReq (2 + j)
        constructor
        · intro hok
          have := hiff.mp hok
          omega
        · intro hle
          exact hiff.mpr (by omega)
      · intro hgt
        simp only [List.getElem_cons_succ, List.getElem_map,
          List.getElem_range', one_mul]
        exact rlDecision_tooMany maxReq (2 + j) (by omega)

theorem updFun_preserving (now : Nat) (ty : TrType) (tid : String)
    (e : TrEmail) :
    ((if trMatches ty tid e then trApply now ty e else e).id = e.id) ∧
    (∀ t, e.openedAt = some t →
      (if trMatches ty tid e then trApply now ty e else e).openedAt = some t) ∧
    (∀ t, e.clickedAt = some t →
      (if trMatches ty tid e then trApply now ty e else e).clickedAt = some t) := by
  by_cases hm : trMatches ty tid e = true
  · rw [if_pos hm]
    unfold trMatches at hm
    simp only [Bool.and_eq_true, decide_eq_true_eq] at hm
    cases ty with
    | opened =>
      have hnone : e.openedAt = none := by simpa using hm.2
      refine ⟨rfl, ?_, ?_⟩
      · intro t hop
        rw [hnone] at hop
        cases hop
      · intro t hcl
        exact hcl
    | clicked =>
      have hnone : e.clickedAt = none := by simpa using hm.2
      refine ⟨rfl, ?_, ?_⟩
      · intro t hop
        exact hop
      · intro t hcl
        rw [hnone] at hcl
        cases hcl
  · rw [if_neg hm]
    exact ⟨rfl, fun t h => h, fun t h => h⟩

theorem applyTrOp_emails (op : TrOp) (st : TrackSt) :
    ∃ f : TrEmail → TrEmail,
      (∀ e : TrEmail, (f e).id = e.id ∧
        (∀ t, e.openedAt = some t → (f e).openedAt = some t) ∧
        (∀ t, e.clickedAt = some t → (f e).clickedAt = some t)) ∧
      (applyTrOp op st).emails = st.emails.map f := by
  cases op with
  | openOp now tid =>
    unfold applyTrOp trackEmailOpen
    cases hfind : getEmailByTrackingId tid st with
    | none =>
      refine ⟨id, fun e => ⟨rfl, fun t h => h, fun t h => h⟩, ?_⟩
      simp [hfind]
    | some email =>
      by_cases hop : email.openedAt.isSome = true
      · refine ⟨id, fun e => ⟨rfl, fun t h => h, fun t h => h⟩, ?_⟩
        simp [hfind, hop]
      · refine ⟨fun e => if trMatches TrType.opened tid e then
          trApply now TrType.opened e else e,
          fun e => updFun_preserving now TrType.opened tid e, ?_⟩
        cases hrow : (st.emails.filter (trMatches TrType.opened tid)).head? with
        | none => simp [hfind, hop, updateEmailTracking, hrow]
        | some row => simp [hfind, hop, updateEmailTracking, hrow]
  | clickOp now tid url =>
    unfold applyTrOp trackEmailClick
    cases hfind : getEmailByTrackingId tid st with
    | none =>
      refine ⟨id, fun e => ⟨rfl, fun t h => h, fun t h => h⟩, ?_⟩
      simp [hfind]
    | some email =>
      refine ⟨fun e => if trMatches TrType.clicked tid e then
        trApply now TrType.clicked e else e,
        fun e => updFun_preserving now TrType.clicked tid e, ?_⟩
      cases hrow : (st.emails.filter (trMatches TrType.clicked tid)).head? with
      | none => simp [hfind, updateEmailTracking, hrow]
      | some row =>
        by_cases hmet : email.clickedAt.isSome = true
        · simp [hfind, updateEmailTracking, hrow, hmet]
        · simp [hfind, updateEmailTracking, hrow, hmet]

/-- C6: for every email record, openedAt and clickedAt are write-once:
over any sequence of open and click tracking operations, a record whose
timestamp is set keeps exactly that value (and its identity), because the
update-where clause only touches rows whose timestamp is still null; and
a repeated open on an email whose open timestamp exists reports already
tracked and leaves the store untouched. -/
theorem c6_tracking_timestamps_write_once
    (ops : List TrOp) (st : TrackSt) (i : Nat) (e : TrEmail)
    (he : st.emails[i]? = some e) :
    (∃ e2, (applyTrOps ops st).emails[i]? = some e2 ∧ e2.id = e.id ∧
      (∀ t, e.openedAt = some t → e2.openedAt = some t) ∧
      (∀ t, e.clickedAt = some t → e2.clickedAt = some t)) ∧
    (∀ (now : Nat) (tid : String) (st2 : TrackSt) (e3 : TrEmail) (t : Nat),
      getEmailByTrackingId tid st2 = some e3 → e3.openedAt = some t →
      trackEmailOpen now tid st2 =
        ({ success := true, alreadyTracked := true, emailId := some e3.id },
          st2)) := by
  constructor
  · induction ops generalizing st e with
    | nil =>
      exact ⟨e, by simpa [applyTrOps] using he, rfl, fun t h => h,
        fun t h => h⟩
    | cons op ops ih =>
      obtain ⟨f, hf, hemails⟩ := applyTrOp_emails op st
      have hstep : (applyTrOp op st).emails[i]? = some (f e) := by
        rw [hemails, List.getElem?_map, he]
        rfl
      have happly : applyTrOps (op :: ops) st = applyTrOps ops (applyTrOp op st) := rfl
      obtain ⟨e2, he2, hid, hop, hcl⟩ := ih (applyTrOp op st) (f e) hstep
      refine ⟨e2, by rw [happly]; exact he2, ?_, ?_, ?_⟩
      · rw [hid, (hf e).1]
      · intro t h
        exact hop t ((hf e).2.1 t h)
      · intro t h
        exact hcl t ((hf e).2.2 t h)
  · intro now tid st2 e3 t hfind hopen
    unfold trackEmailOpen
    rw [hfind]
    simp only []
    rw [if_pos (by rw [hopen]; rfl)]

/-- C7 counterexample: click tracking does not always append a tracking
event.  With an unknown tracking id the recorder returns the redirect
target but appends nothing, refuting the claim that a tracking event is
always appended on every invocation. -/
theorem c7_counterexample :
    ¬ ((trackEmailClick 0 "t1" "http://x/" c7cSt).2.events.length =
        c7cSt.events.length + 1) ∧
    (trackEmailClick 0 "t1" "http://x/" c7cSt).1.redirectUrl = "http://x/" := by
  decide

theorem find?_none_of_filter_head (tid : String) (emails : List TrEmail)
    (row : TrEmail)
    (hrow : (emails.filter (trMatches TrType.clicked tid)).head? = some row)
    (hfind : emails.find? (fun e => e.trackingId = tid) = none) : False := by
  have hmem : row ∈ emails.filter (trMatches TrType.clicked tid) := by
    rcases hfil : emails.filter (trMatches TrType.clicked tid) with _ | ⟨x, xs⟩
    · rw [hfil] at hrow
      cases hrow
    · rw [hfil] at hrow
      have hxr : x = row := by injection hrow
      rw [← hxr]
      simp
  obtain ⟨hmem2, hmatch⟩ := List.mem_filter.mp hmem
  have htid : row.trackingId = tid := by
    unfold trMatches at hmatch
    simp only [Bool.and_eq_true, decide_eq_true_eq] at hmatch
    exact hmatch.1
  have := List.find?_eq_none.mp hfind row hmem2
  simp [htid] at this

/-- C7 (amended): every click-tracking invocation returns a redirect
target — the given url when nonempty, the root path otherwise — including
when the tracking id is unknown and when a storage call throws at any
point (the catch still returns the redirect).  A tracking event is
appended exactly when the click timestamp was newly set, that is when a
row with the tracking id and a null click timestamp exists; otherwise —
unknown tracking id or repeated click — the event log is unchanged. -/
theorem c7_click_redirect_never_blocked (now : Nat) (tid url : String)
    (st : TrackSt) (fail : Option ClickFail) :
    ((trackEmailClick now tid url st).1.redirectUrl =
      if url = "" then "/" else url) ∧
    ((trackEmailClickE fail now tid url st).1.redirectUrl =
      if url = "" then "/" else url) ∧
    (∀ row, (st.emails.filter (trMatches TrType.clicked tid)).head? =
        some row →
      (trackEmailClick now tid url st).2.events = st.events ++
        [{ emailId := row.id, trackingId := tid,
           eventType := TrType.clicked, time := now }]) ∧
    ((st.emails.filter (trMatches TrType.clicked tid)).head? = none →
      (trackEmailClick now tid url st).2.events = st.events) := by
  refine ⟨?_, ?_, ?_, ?_⟩
  · unfold trackEmailClick
    cases hfind : getEmailByTrackingId tid st with
    | none => simp [hfind, orStr]
    | some email =>
      cases hrow : (st.emails.filter (trMatches TrType.clicked tid)).head? with
      | none => simp [hfind, updateEmailTracking, hrow, orStr]
      | some row =>
        by_cases hmet : email.clickedAt.isSome = true
        · simp [hfind, updateEmailTracking, hrow, hmet, orStr]
        · simp [hfind, updateEmailTracking, hrow, hmet, orStr]
  · cases fail with
    | none =>
      unfold trackEmailClickE
      cases hfind : getEmailByTrackingId tid st with
      | none => simp [trackEmailClick, hfind, orStr]
      | some email =>
        cases hrow : (st.emails.filter (trMatches TrType.clicked tid)).head? with
        | none => simp [trackEmailClick, hfind, updateEmailTracking, hrow, orStr]
        | some row =>
          by_cases hmet : email.clickedAt.isSome = true
          · simp [trackEmailClick, hfind, updateEmailTracking, hrow, hmet, orStr]
          · simp [trackEmailClick, hfind, updateEmailTracking, hrow, hmet, orStr]
    | some fp =>
      cases fp with
      | atLookup => simp [trackEmailClickE, orStr]
      | atUpdate =>
        unfold trackEmailClickE
        cases hfind : getEmailByTrackingId tid st with
        | none => simp [hfind, orStr]
        | some email => simp [hfind, orStr]
      | atMetric =>
        unfold trackEmailClickE
        cases hfind : getEmailByTrackingId tid st with
        | none => simp [hfind, orStr]
        | some email => simp [hfind, orStr]
  · intro row hrow
    unfold trackEmailClick
    cases hfind : getEmailByTrackingId tid st with
    | none =>
      exfalso
      exact find?_none_of_filter_head tid st.emails row hrow hfind
    | some email =>
      by_cases hmet : email.clickedAt.isSome = true
      · simp [hfind, updateEmailTracking, hrow, hmet, trApply]
      · simp [hfind, updateEmailTracking, hrow, hmet, trApply]
  · intro hrow
    unfold trackEmailClick
    cases hfind : getEmailByTrackingId tid st with
    | none => simp [hfind]
    | some email =>
      by_cases hmet : email.clickedAt.isSome = true
      · simp [hfind, updateEmailTracking, hrow, hmet]
      · simp [hfind, updateEmailTracking, hrow, hmet]

theorem c1_witness :
    (processEmailSend c1World c1Req emptyPipeSt).1.success = false ∧
    (processEmailSend c1World c1Req emptyPipeSt).1.message =
      "Recipient is in a blocked region" ∧
    (∃ reason, (processEmailSend c1World c1Req emptyPipeSt).1.error =
      some ("Compliance violation: " ++ reason)) ∧
    (processEmailSend c1World c1Req emptyPipeSt).2.emails =
      emptyPipeSt.emails ∧
    (processEmailSend c1World c1Req emptyPipeSt).2.sentMessages =
      emptyPipeSt.sentMessages ∧
    (processEmailSend c1World c1Req emptyPipeSt).2.trace =
      emptyPipeSt.trace ++ [Ev.complianceCheck] :=
  c1_blocked_region_rejected_before_transport c1World c1Req emptyPipeSt rfl
    (by decide)

theorem c2_witness :
    checkRegionComplianceSvc c2World "CU" =
      { allowed := false, code := some "CU",
        reason := some "System error during compliance check" } ∧
    (processEmailSend c2World c2Req emptyPipeSt).1.success = false ∧
    (processEmailSend c2World c2Req emptyPipeSt).1.message =
      "Failed to process email request" ∧
    (processEmailSend c2World c2Req emptyPipeSt).2.emails =
      emptyPipeSt.emails ∧
    (processEmailSend c2World c2Req emptyPipeSt).2.sentMessages =
      emptyPipeSt.sentMessages ∧
    (processEmailSend c2World c2Req emptyPipeSt).2.trace =
      emptyPipeSt.trace ++ [Ev.complianceCheck] :=
  c2_compliance_lookup_fails_closed c2World "CU" c2Req emptyPipeSt rfl
    (by decide)

theorem c3_witness :
    (processEmailSend c3World c3Req emptyPipeSt).1 =
      { success := false, emailId := some 1, trackingId := some "t3",
        message := "Failed to send email",
        error := some "SMTP connection refused" } ∧
    (processEmailSend c3World c3Req emptyPipeSt).2.emails =
      [{ id := 1, toAddr := "user@example.com", fromAddr := "a@b.co",
         subject := "s", templateId := none, smtpProviderId := 7,
         region := "Global", trackingId := "t3", status := "failed" }] ∧
    (processEmailSend c3World c3Req emptyPipeSt).2.trace =
      [Ev.complianceCheck, Ev.providerSelect, Ev.emailCreate 1,
       Ev.providerSelect, Ev.connAcquire 7, Ev.transportSend,
       Ev.statusUpdate 1 "failed"] := by
  have h := c3_record_persisted_before_transport c3World c3Req emptyPipeSt
    "<body>x</body>" "" naProvider (by decide) (by decide) (by decide) rfl
    (by decide) rfl rfl rfl (by decide)
  obtain ⟨h1, h2, h3⟩ := h.1 rfl
  refine ⟨h1, ?_, ?_⟩
  · rw [h2]
    rfl
  · rw [h3]
    rfl

theorem c4_witness :
    ∃ p, getSmtpProvider [naProvider] "user@example.com" 1 = some p ∧
      p ∈ [naProvider].filter
        (fun q => q.region = deriveRegion "user@example.com" && q.isActive) ∧
      ∀ q ∈ [naProvider].filter
        (fun q => q.region = deriveRegion "user@example.com" && q.isActive),
        p.priority ≤ q.priority := by
  have h := c4_provider_selection [naProvider] "user@example.com" 1
    ([naProvider].filter
      (fun q => q.region = deriveRegion "user@example.com" && q.isActive))
    ([naProvider].filter (fun q => q.isActive)) (by decide) rfl rfl
  exact h.2.2.2.2.1 (by decide) (by decide)

theorem c5_witness :
    ((rlHits 1000 none (0 :: [1, 2])).map (fun r => r.count) =
      List.range' 1 ([1, 2].length + 1)) ∧
    (∀ r ∈ rlHits 1000 none (0 :: [1, 2]), r.resetTime = 0 + 1000) ∧
    (∀ i (hi : i < (rlHits 1000 none (0 :: [1, 2])).length),
      (rlDecision 2 ((rlHits 1000 none (0 :: [1, 2]))[i].count) =
          RLOutcome.ok ↔ i + 1 ≤ 2) ∧
      (2 < i + 1 →
        rlDecision 2 ((rlHits 1000 none (0 :: [1, 2]))[i].count) =
          RLOutcome.tooMany 429)) :=
  c5_rate_limit_hits 1000 2 0 none [1, 2] (Or.inl rfl) (by decide)

theorem c6_witness :
    ∃ e2, (applyTrOps [TrOp.openOp 9 "tid1"] c6St).emails[0]? = some e2 ∧
      e2.id = c6Email.id ∧
      (∀ t, c6Email.openedAt = some t → e2.openedAt = some t) ∧
      (∀ t, c6Email.clickedAt = some t → e2.clickedAt = some t) :=
  (c6_tracking_timestamps_write_once [TrOp.openOp 9 "tid1"] c6St 0 c6Email
    (by decide)).1

theorem c7_witness :
    (trackEmailClick 3 "t" "http://u/" c7wSt).2.events = c7wSt.events ++
      [{ emailId := 1, trackingId := "t", eventType := TrType.clicked,
         time := 3 }] ∧
    (trackEmailClick 3 "t" "http://u/" c7wSt).1.redirectUrl = "http://u/" := by
  have h := c7_click_redirect_never_blocked 3 "t" "http://u/" c7wSt none
  refine ⟨h.2.2.1 c7wEmail (by decide), ?_⟩
  rw [h.1]
  rfl
